import Mathlib

/-!
Verification of the agent-state storage subsystem of the CopilotKit Python
runtime port: the in-memory byte-oriented storage backend
(`MemoryStorageBackend`), the agent state store (`MemoryStateStore`) and the
`StateStoreManager` wrapper, as implemented in
`src/python/agui_runtime/runtime_py/storage/{base,memory,manager}.py`.

Modelling conventions:
* Time is a natural number of milliseconds (`datetime.utcnow()` snapshots are
  passed explicitly as a `now` argument; `timedelta(seconds=t)` becomes
  `1000 * t`).  All `utcnow()` calls inside one public operation are modelled
  as the same instant.
* Python `dict`s are insertion-ordered association lists over `String` keys:
  assignment to an existing key replaces the value in place, assignment to a
  fresh key appends, `del` removes the entry.
* Python byte strings are modelled by `Blob`: either the canonical
  serialization of a stored envelope (the output of `serialize_state` on a
  `{"data": ..., "metadata": ...}` container) or any other byte string,
  represented by its length only — the backend never inspects byte contents,
  only `len`.  The serialized length and the sha256 checksum are modelled
  abstractly by the structural size, which no claim inspects.
* Exceptions are modelled by `Except` results; every operation also returns
  the post-state, so partial mutation before a raise is preserved.
-/

/-! ## Python-faithful string helpers -/

/-- Characters accepted by the identifier character class
`[a-zA-Z0-9\-_]` of `validate_thread_id` / `validate_agent_name`
(`base.py`). -/
def isIdentChar (c : Char) : Bool :=
  (('a' ≤ c && c ≤ 'z') || ('A' ≤ c && c ≤ 'Z') || ('0' ≤ c && c ≤ '9')
    || c = '-' || c = '_')

/-- `re.match(r'^[a-zA-Z0-9\-_]+$', s)` in Python (CPython `$` semantics:
`$` matches at the end of the string or just before one newline at the end
of the string, so a single trailing `'\n'` after a nonempty run of
identifier characters is accepted). -/
def pyMatchIdent (s : String) : Bool :=
  let cs := s.data
  let body := if cs.getLast? = some '\n' then cs.dropLast else cs
  !body.isEmpty && body.all isIdentChar

/-- `validate_thread_id` from `base.py`: nonempty, length between 1 and 255
code points, and the regex match above. -/
def validateThreadId (s : String) : Bool :=
  !(s.data.isEmpty) && !(s.data.length > 255 || s.data.length < 1)
    && pyMatchIdent s

/-- `validate_agent_name` from `base.py`: nonempty, length between 1 and 100
code points, and the regex match above. -/
def validateAgentName (s : String) : Bool :=
  !(s.data.isEmpty) && !(s.data.length > 100 || s.data.length < 1)
    && pyMatchIdent s

/-- `s.startswith(pre)` on Python strings (code-point prefix). -/
def strStarts (s pre : String) : Bool :=
  pre.data.isPrefixOf s.data

/-- `s.endswith(suf)` on Python strings (code-point suffix). -/
def strEndsWith (s suf : String) : Bool :=
  suf.data.reverse.isPrefixOf s.data.reverse

/-- `s[n:]` on Python strings (drop the first `n` code points). -/
def strDrop (s : String) (n : Nat) : String :=
  ⟨s.data.drop n⟩

/-- `s[:-(n)]`-style suffix removal: drop the last `n` code points. -/
def strDropRight (s : String) (n : Nat) : String :=
  ⟨s.data.take (s.data.length - n)⟩

/-- Code-point `≤` on Python strings (the order used by `sorted` on `str`). -/
def pyStrLe (a b : String) : Bool :=
  lex a.data b.data where
    lex : List Char → List Char → Bool
      | [], _ => true
      | _ :: _, [] => false
      | a :: as, b :: bs =>
        if a.toNat < b.toNat then true
        else if b.toNat < a.toNat then false
        else lex as bs

/-! ## Python `sorted`: a stable sort -/

/-- Insert `x` after every element `y` of an ordered list with `le y x`;
this is the placement Python's stable `sorted` gives an element relative to
earlier equal elements. -/
def insOrdered (le : α → α → Bool) (x : α) : List α → List α
  | [] => [x]
  | y :: ys => if le y x then y :: insOrdered le x ys else x :: y :: ys

/-- Stable sort modelling Python's `sorted(l, key=...)` (elements comparing
equal keep their original relative order). -/
def pySorted (le : α → α → Bool) (l : List α) : List α :=
  l.foldl (fun acc x => insOrdered le x acc) []

theorem insOrdered_perm (le : α → α → Bool) (x : α) (l : List α) :
    (insOrdered le x l).Perm (x :: l) := by
  induction l with
  | nil => simp [insOrdered]
  | cons y ys ih =>
    simp only [insOrdered]
    split
    · exact ((ih.cons y).trans (List.Perm.swap x y ys))
    · exact List.Perm.refl _

theorem pySorted_perm (le : α → α → Bool) (l : List α) :
    (pySorted le l).Perm l := by
  suffices h : ∀ acc : List α,
      (l.foldl (fun acc x => insOrdered le x acc) acc).Perm (l.reverse ++ acc) by
    have h2 := h []
    rw [List.append_nil] at h2
    exact h2.trans (List.reverse_perm l)
  induction l with
  | nil => intro acc; simp
  | cons y ys ih =>
    intro acc
    simp only [List.foldl_cons, List.reverse_cons, List.append_assoc,
      List.singleton_append]
    exact (ih _).trans (List.Perm.append_left _ (insOrdered_perm le y acc))

theorem pySorted_length (le : α → α → Bool) (l : List α) :
    (pySorted le l).length = l.length :=
  (pySorted_perm le l).length_eq

theorem pySorted_mem (le : α → α → Bool) (l : List α) (x : α) :
    x ∈ pySorted le l ↔ x ∈ l :=
  (pySorted_perm le l).mem_iff

/-! ## Insertion-ordered dictionaries (Python `dict`) -/

namespace AL

/-- `d.get(k)` / `d[k]`: value of the first (unique, for well-formed dicts)
entry with key `k`. -/
def get? (l : List (String × β)) (k : String) : Option β :=
  match l with
  | [] => none
  | (k', v) :: ps => if k' = k then some v else get? ps k

/-- `k in d`. -/
def hasKey (l : List (String × β)) (k : String) : Bool :=
  (get? l k).isSome

/-- `d[k] = v`: replace in place if present, else append (Python dicts keep
insertion order and key position on update). -/
def set (l : List (String × β)) (k : String) (v : β) : List (String × β) :=
  match l with
  | [] => [(k, v)]
  | (k', v') :: ps => if k' = k then (k', v) :: ps else (k', v') :: set ps k v

/-- `del d[k]` / `d.pop(k, None)`: remove the entry with key `k`. -/
def erase (l : List (String × β)) (k : String) : List (String × β) :=
  match l with
  | [] => []
  | (k', v') :: ps => if k' = k then ps else (k', v') :: erase ps k

/-- `list(d.keys())`. -/
def keys (l : List (String × β)) : List String :=
  l.map Prod.fst

/-- `old.copy(); .update(new)`: shallow top-level dict union, new keys win,
key positions of `old` kept, fresh keys appended in `new`'s order. -/
def update (old new : List (String × β)) : List (String × β) :=
  new.foldl (fun acc p => set acc p.1 p.2) old

end AL

/-! ## JSON-serializable state data -/

/-- A JSON value as produced by `json.loads` / consumed by `json.dumps`
(state data payloads are dictionaries of these). -/
inductive JVal where
  | jnull
  | jbool (b : Bool)
  | jint (n : Int)
  | jstr (s : String)
  | jarr (xs : List JVal)
  | jobj (fields : List (String × JVal))

/-- A state-data dictionary (top level of a saved payload). -/
abbrev StateData := List (String × JVal)

/-- `StateMetadata` from `base.py` (`to_dict`/`from_dict` round-trip is the
identity on this representation; timestamps in milliseconds). -/
structure SMeta where
  created_at : Nat
  updated_at : Nat
  version : Nat
  size_bytes : Nat
  checksum : Option Nat
  tags : List (String × String)

/-- The envelope persisted under one key:
`{"data": final_state_data, "metadata": metadata.to_dict()}`. -/
structure Container where
  data : StateData
  meta : SMeta

/-- A Python byte string as seen by this subsystem: either the canonical
`serialize_state` encoding of an envelope, or any other byte string
represented by its length (the backend only ever takes `len` of a value and
stores it opaquely). -/
inductive Blob where
  | enc (c : Container)
  | junk (len : Nat)

mutual

/-- Structural size of a JSON value, standing in for the length of its
`json.dumps` text (no claim inspects the exact number). -/
def JVal.jsize : JVal → Nat
  | .jnull => 4
  | .jbool _ => 5
  | .jint _ => 1
  | .jstr s => s.data.length + 2
  | .jarr xs => 2 + jsizeList xs
  | .jobj fs => 2 + jsizeFields fs

def jsizeList : List JVal → Nat
  | [] => 0
  | x :: xs => JVal.jsize x + 1 + jsizeList xs

def jsizeFields : List (String × JVal) → Nat
  | [] => 0
  | (k, v) :: fs => k.data.length + JVal.jsize v + 4 + jsizeFields fs

end

/-- Stand-in for the serialized length of the metadata dictionary. -/
def smetaSize (m : SMeta) : Nat :=
  96 + (m.tags.map (fun p => p.1.data.length + p.2.data.length + 6)).sum

/-- Stand-in for `len(serialize_state(container))`. -/
def containerSize (c : Container) : Nat :=
  22 + jsizeFields c.data + smetaSize c.meta

/-- `len(value)` of the byte string; the encoded length of an envelope is
modelled by `containerSize` (no claim inspects the exact number). -/
def blobSize : Blob → Nat
  | .enc c => containerSize c
  | .junk n => n

/-- `StoredState` from `base.py`. -/
structure SState where
  state_key : String
  data : StateData
  meta : SMeta

/-- Entry bookkeeping of the memory backend: `self._metadata[key]`. -/
structure EntryMeta where
  created_at : Nat
  expires_at : Option Nat
  size : Nat

/-! ## `MemoryStorageBackend` (`memory.py`) -/

/-- The mutable state of one `MemoryStorageBackend` instance. -/
structure MemBackend where
  max_size_bytes : Nat
  default_ttl_seconds : Option Nat
  storage : List (String × Blob)
  meta : List (String × EntryMeta)
  access_times : List (String × Nat)
  total_size_bytes : Int
  access_count : Nat
  eviction_count : Nat

/-- `MemoryStorageBackend.__init__`: `max_size_bytes = max_size_mb * 1024 *
1024`, empty tables, zero counters. -/
def memBackendNew (max_size_mb : Nat) (default_ttl_seconds : Option Nat) :
    MemBackend where
  max_size_bytes := max_size_mb * 1024 * 1024
  default_ttl_seconds := default_ttl_seconds
  storage := []
  meta := []
  access_times := []
  total_size_bytes := 0
  access_count := 0
  eviction_count := 0

/-- `expires_at and utcnow() > expires_at` for one key's entry metadata
(`metadata.get(key, {})` yields no expiry when the key is untracked). -/
def entryExpired (now : Nat) (m : Option EntryMeta) : Bool :=
  match m with
  | none => false
  | some em =>
    match em.expires_at with
    | none => false
    | some e => now > e

/-- `_remove_key_unsafe`: drop the key from all three tables, decrementing
the size counter by the stored value's length when present. -/
def removeKey (st : MemBackend) (k : String) : MemBackend :=
  let st' :=
    match AL.get? st.storage k with
    | some v =>
      { st with
        storage := AL.erase st.storage k
        total_size_bytes := st.total_size_bytes - (blobSize v : Int) }
    | none => st
  { st' with meta := AL.erase st'.meta k
             access_times := AL.erase st'.access_times k }

/-- `_cleanup_expired_unsafe`: collect the keys whose entry metadata has
elapsed, then remove each. -/
def cleanupExpired (st : MemBackend) (now : Nat) : MemBackend :=
  let expiredKeys :=
    (st.meta.filter (fun p => entryExpired now (some p.2))).map Prod.fst
  expiredKeys.foldl removeKey st

/-- The eviction loop of `_ensure_space_unsafe`: walk keys in ascending
last-access order, skip the excluded key, evict present keys and stop as
soon as the evicted byte count reaches the needed space. Returns the state
and the total evicted bytes. -/
def evictGo (exclude : String) (needed : Int) :
    List String → MemBackend → Int → MemBackend × Int
  | [], st, evicted => (st, evicted)
  | k :: ks, st, evicted =>
    if k = exclude then evictGo exclude needed ks st evicted
    else
      match AL.get? st.storage k with
      | none => evictGo exclude needed ks st evicted
      | some v =>
        let sz : Int := blobSize v
        let st' := { removeKey st k with
                     eviction_count := st.eviction_count + 1 }
        let evicted' := evicted + sz
        if evicted' ≥ needed then (st', evicted')
        else evictGo exclude needed ks st' evicted'

/-- `_ensure_space_unsafe`: purge expired entries first; if the incoming
write still does not fit, evict least-recently-accessed entries until it
does or no candidates remain. -/
def ensureSpace (st : MemBackend) (now : Nat) (required : Nat)
    (exclude : String) : MemBackend :=
  let st := cleanupExpired st now
  let current : Int :=
    st.total_size_bytes -
      (if exclude ≠ "" then
        match AL.get? st.storage exclude with
        | some v => (blobSize v : Int)
        | none => 0
      else 0)
  if current + (required : Int) ≤ (st.max_size_bytes : Int) then st
  else
    let needed : Int := current + (required : Int) - (st.max_size_bytes : Int)
    let keysByAccess :=
      (pySorted (fun a b => a.2 ≤ b.2) st.access_times).map Prod.fst
    (evictGo exclude needed keysByAccess st 0).1

/-- `MemoryStorageBackend.get`. -/
def backendGet (st : MemBackend) (now : Nat) (k : String) :
    Option Blob × MemBackend :=
  match AL.get? st.storage k with
  | none => (none, st)
  | some v =>
    if entryExpired now (AL.get? st.meta k) then
      (none, removeKey st k)
    else
      (some v, { st with access_times := AL.set st.access_times k now
                         access_count := st.access_count + 1 })

/-- `MemoryStorageBackend.set`: compute the expiry (`ttl_seconds or
default_ttl_seconds`, both falsy-on-zero), make space, then write all three
tables and adjust the size counter by `value_size - old_size`. -/
def backendSet (st : MemBackend) (now : Nat) (k : String) (v : Blob)
    (ttl_seconds : Option Nat) : MemBackend :=
  let effective_ttl : Option Nat :=
    match ttl_seconds with
    | some t => if t = 0 then st.default_ttl_seconds else some t
    | none => st.default_ttl_seconds
  let expires_at : Option Nat :=
    match effective_ttl with
    | some t => if t = 0 then none else some (now + 1000 * t)
    | none => none
  let value_size := blobSize v
  let st := ensureSpace st now value_size k
  let old_size : Nat :=
    match AL.get? st.storage k with
    | some w => blobSize w
    | none => 0
  { st with
    storage := AL.set st.storage k v
    meta := AL.set st.meta k ⟨now, expires_at, value_size⟩
    access_times := AL.set st.access_times k now
    total_size_bytes := st.total_size_bytes + (value_size : Int) -
      (old_size : Int) }

/-- `MemoryStorageBackend.delete`: remove if present, ignoring expiry. -/
def backendDelete (st : MemBackend) (k : String) : Bool × MemBackend :=
  if AL.hasKey st.storage k then (true, removeKey st k) else (false, st)

/-- `MemoryStorageBackend.exists`: absent or expired keys report `False`
(the expired entry is purged as a side effect); no access-time update. -/
def backendExists (st : MemBackend) (now : Nat) (k : String) :
    Bool × MemBackend :=
  match AL.get? st.storage k with
  | none => (false, st)
  | some _ =>
    if entryExpired now (AL.get? st.meta k) then (false, removeKey st k)
    else (true, st)

/-- `MemoryStorageBackend.list_keys`: purge expired entries, then list the
keys matching the prefix (all keys when the prefix is empty). -/
def backendListKeys (st : MemBackend) (now : Nat) (pre : String) :
    List String × MemBackend :=
  let st := cleanupExpired st now
  if pre ≠ "" then
    (st.storage.filter (fun p => strStarts p.1 pre) |>.map Prod.fst, st)
  else
    (AL.keys st.storage, st)

/-- `MemoryStorageBackend.cleanup`: clear all tables and the size counter. -/
def backendCleanup (st : MemBackend) : MemBackend :=
  { st with storage := [], meta := [], access_times := [],
            total_size_bytes := 0 }

/-- `MemoryStorageBackend.health_check`: round-trip a sentinel key (the
17-byte literal `b"health_check_test"`). -/
def backendHealthCheck (st : MemBackend) (now : Nat) : Bool × MemBackend :=
  let testKey := "__health_check__"
  let testVal : Blob := .junk 17
  let st := backendSet st now testKey testVal none
  let (retrieved, st) := backendGet st now testKey
  let (_, st) := backendDelete st testKey
  let same : Bool :=
    match retrieved with
    | some (.junk n) => n == 17
    | _ => false
  (same, st)

/-! ## Errors (`base.py` exception taxonomy) -/

/-- The storage exception hierarchy: `StorageError` and its specializations
(`StateNotFoundError`, `StateCorruptionError`); the constructor used
determines the Python class and therefore `isinstance` dispatch and the
`error_code`. -/
inductive SErr where
  | storageError (msg : String)
  | stateNotFound (key : String)
  | stateCorruption (key reason : String)

/-- The machine-readable `error_code` attached by each exception class. -/
def SErr.code : SErr → String
  | .storageError _ => "STORAGE_ERROR"
  | .stateNotFound _ => "STATE_NOT_FOUND"
  | .stateCorruption _ _ => "STATE_CORRUPTION"

/-- `str(e)`, which is `f"[{self.error_code}] {self.message}"`. -/
def SErr.str : SErr → String
  | .storageError m => "[STORAGE_ERROR] " ++ m
  | .stateNotFound k => "[STATE_NOT_FOUND] State not found for key: " ++ k
  | .stateCorruption k r =>
    "[STATE_CORRUPTION] State corruption detected for key " ++ k ++ ": " ++ r

/-! ## Serialization (`base.py`) -/

/-- Model of `len(json.dumps(d, ...))` for a data dictionary. -/
def dataBytesLen (d : StateData) : Nat := 2 + jsizeFields d

/-- Abstract stand-in for `hashlib.sha256(state_bytes).hexdigest()` (no
claim inspects the value). -/
def sha256Model (d : StateData) : Nat := dataBytesLen d

/-- `serialize_state` applied to the envelope container: the canonical
encoding (total in this model; the state-data type is JSON-serializable by
construction). -/
def serializeContainer (c : Container) : Blob := .enc c

/-- `deserialize_state`: the canonical encoding round-trips; any other byte
string raises `StateCorruptionError("deserialization", ...)` — note the
Python code passes the literal string `"deserialization"` as the
`state_key` argument, not the offending storage key. -/
def deserializeState (b : Blob) : Except SErr Container :=
  match b with
  | .enc c => .ok c
  | .junk _ =>
    .error (.stateCorruption "deserialization"
      "Failed to deserialize state data: invalid JSON")

/-- `generate_state_key` from `base.py`. -/
def generateStateKey (tid an : String) : String :=
  "copilotkit:state:" ++ tid ++ ":" ++ an

/-! ## `MemoryStateStore` (`memory.py`) -/

/-- The state of one `MemoryStateStore`: its backend plus the per-thread
state-count limit. -/
structure MemStore where
  backend : MemBackend
  max_states_per_thread : Nat

/-- `MemoryStateStore.__init__` (defaults: 100 MB, 3600 s TTL, 50 states
per thread). -/
def memStateStoreNew (max_size_mb : Nat := 100)
    (default_ttl_seconds : Option Nat := some 3600)
    (max_states_per_thread : Nat := 50) : MemStore where
  backend := memBackendNew max_size_mb default_ttl_seconds
  max_states_per_thread := max_states_per_thread

/-- `MemoryStateStore.load_agent_state`: validation errors are raised
directly; inside the `try` block a deserialization failure (or any other
exception) is caught and re-raised as a fresh generic
`StorageError(f"Failed to load agent state: {e}")`. -/
def loadAgentState (st : MemStore) (now : Nat) (tid an : String) :
    Except SErr (Option SState) × MemStore :=
  if ¬ validateThreadId tid then
    (.error (.storageError ("Invalid thread ID: " ++ tid)), st)
  else if ¬ validateAgentName an then
    (.error (.storageError ("Invalid agent name: " ++ an)), st)
  else
    let key := generateStateKey tid an
    let (raw, b1) := backendGet st.backend now key
    let st1 := { st with backend := b1 }
    match raw with
    | none => (.ok none, st1)
    | some blob =>
      match deserializeState blob with
      | .error e =>
        (.error (.storageError ("Failed to load agent state: " ++ e.str)), st1)
      | .ok c => (.ok (some ⟨key, c.data, c.meta⟩), st1)

/-- `MemoryStateStore.delete_agent_state`. -/
def deleteAgentState (st : MemStore) (tid an : String) :
    Except SErr Bool × MemStore :=
  if ¬ validateThreadId tid then
    (.error (.storageError ("Invalid thread ID: " ++ tid)), st)
  else if ¬ validateAgentName an then
    (.error (.storageError ("Invalid agent name: " ++ an)), st)
  else
    let key := generateStateKey tid an
    let (deleted, b1) := backendDelete st.backend key
    (.ok deleted, { st with backend := b1 })

/-- `MemoryStateStore.list_thread_agents`: prefix-list the backend keys,
strip the `copilotkit:state:<tid>:` prefix, keep valid agent names, sort. -/
def listThreadAgents (st : MemStore) (now : Nat) (tid : String) :
    Except SErr (List String) × MemStore :=
  if ¬ validateThreadId tid then
    (.error (.storageError ("Invalid thread ID: " ++ tid)), st)
  else
    let pre := "copilotkit:state:" ++ tid ++ ":"
    let (ks, b1) := backendListKeys st.backend now pre
    let agents := ks.filterMap (fun k =>
      if strStarts k pre then
        let an := strDrop k pre.data.length
        if validateAgentName an then some an else none
      else none)
    (.ok (pySorted pyStrLe agents), { st with backend := b1 })

/-- `MemoryStateStore.list_agent_threads`: full-keyspace scan matching the
`:{agent_name}` suffix and the `copilotkit:state:` prefix. -/
def listAgentThreads (st : MemStore) (now : Nat) (an : String) :
    Except SErr (List String) × MemStore :=
  if ¬ validateAgentName an then
    (.error (.storageError ("Invalid agent name: " ++ an)), st)
  else
    let (ks, b1) := backendListKeys st.backend now "copilotkit:state:"
    let suf := ":" ++ an
    let threads := ks.filterMap (fun k =>
      if strEndsWith k suf && strStarts k "copilotkit:state:" then
        let tid := strDropRight (strDrop k 17) suf.data.length
        if validateThreadId tid then some tid else none
      else none)
    (.ok (pySorted pyStrLe threads), { st with backend := b1 })

/-- `MemoryStateStore.get_state_metadata`: loads the full envelope (data
and metadata share one blob); errors from loading are wrapped once more as
`StorageError(f"Failed to get state metadata: {e}")`. -/
def getStateMetadata (st : MemStore) (now : Nat) (tid an : String) :
    Except SErr (Option SMeta) × MemStore :=
  if ¬ validateThreadId tid then
    (.error (.storageError ("Invalid thread ID: " ++ tid)), st)
  else if ¬ validateAgentName an then
    (.error (.storageError ("Invalid agent name: " ++ an)), st)
  else
    match loadAgentState st now tid an with
    | (.ok r, s) => (.ok (r.map SState.meta), s)
    | (.error e, s) =>
      (.error (.storageError ("Failed to get state metadata: " ++ e.str)), s)

/-- The metadata-collection loop of `_enforce_thread_limits`: for each
agent, `get_state_metadata`; pairs `(agent, updated_at)` are kept for
agents with metadata; an exception aborts the loop and propagates. -/
def collectMeta (now : Nat) (tid : String) :
    List String → MemStore → Except SErr (List (String × Nat)) × MemStore
  | [], st => (.ok [], st)
  | a :: rest, st =>
    match getStateMetadata st now tid a with
    | (.error e, s) => (.error e, s)
    | (.ok none, s) => collectMeta now tid rest s
    | (.ok (some m), s) =>
      match collectMeta now tid rest s with
      | (.error e, s') => (.error e, s')
      | (.ok pairs, s') => (.ok ((a, m.updated_at) :: pairs), s')

/-- The removal loop of `_enforce_thread_limits`: delete the given agents'
states in order; an exception propagates. -/
def deleteOldest (tid : String) :
    List (String × Nat) → MemStore → Except SErr Unit × MemStore
  | [], st => (.ok (), st)
  | (a, _) :: rest, st =>
    match deleteAgentState st tid a with
    | (.error e, s) => (.error e, s)
    | (.ok _, s) => deleteOldest tid rest s

/-- `MemoryStateStore._enforce_thread_limits`: list the thread's agents
excluding the one being written; when at or over the limit, remove the
`len - max + 1` agents with the oldest `updated_at` (stable sort; Python's
`range(min(...))` is `List.take`). -/
def enforceThreadLimits (st : MemStore) (now : Nat) (tid : String)
    (exclude : String) : Except SErr Unit × MemStore :=
  match listThreadAgents st now tid with
  | (.error e, s) => (.error e, s)
  | (.ok ags, s) =>
    let agents := if exclude ≠ "" then ags.filter (fun a => a ≠ exclude) else ags
    if agents.length ≥ st.max_states_per_thread then
      let toRemove := agents.length - st.max_states_per_thread + 1
      match collectMeta now tid agents s with
      | (.error e, s') => (.error e, s')
      | (.ok pairs, s') =>
        let sortedPairs := pySorted (fun a b => a.2 ≤ b.2) pairs
        deleteOldest tid (sortedPairs.take toRemove) s'
    else (.ok (), s)

/-- The body of `save_agent_state`'s `try` block: optional merge-load
(`except StateNotFoundError: pass`), metadata construction (version and
`created_at` come from the merge-load result, so they reset when
`merge_with_existing` is false), serialization, per-thread limit
enforcement, and the final backend write (no explicit TTL: the backend
default applies). -/
def saveInner (st : MemStore) (now : Nat) (tid an key : String)
    (data : StateData) (merge : Bool)
    (tags : Option (List (String × String))) : Except SErr SState × MemStore :=
  let mergeStep : Except SErr (Option SState) × MemStore :=
    if merge then
      match loadAgentState st now tid an with
      | (.ok r, s) => (.ok r, s)
      | (.error e, s) =>
        match e with
        | .stateNotFound _ => (.ok none, s)
        | _ => (.error e, s)
    else (.ok none, st)
  match mergeStep with
  | (.error e, s) => (.error e, s)
  | (.ok existing, s1) =>
    let final : StateData :=
      match existing with
      | some es => AL.update es.data data
      | none => data
    let meta : SMeta :=
      { created_at :=
          match existing with
          | some es => es.meta.created_at
          | none => now
        updated_at := now
        version :=
          match existing with
          | some es => es.meta.version + 1
          | none => 1
        size_bytes := dataBytesLen final
        checksum := some (sha256Model final)
        tags := tags.getD [] }
    match enforceThreadLimits s1 now tid an with
    | (.error e, s2) => (.error e, s2)
    | (.ok _, s2) =>
      let container : Container := ⟨final, meta⟩
      let b3 := backendSet s2.backend now key (serializeContainer container)
        none
      (.ok ⟨key, final, meta⟩, { s2 with backend := b3 })

/-- `MemoryStateStore.save_agent_state`: identifier validation raises
before any backend access; any exception escaping the `try` block is
re-raised as `StorageError(f"Failed to save agent state: {e}")`. -/
def saveAgentState (st : MemStore) (now : Nat) (tid an : String)
    (data : StateData) (merge : Bool := true)
    (tags : Option (List (String × String)) := none) :
    Except SErr SState × MemStore :=
  if ¬ validateThreadId tid then
    (.error (.storageError ("Invalid thread ID: " ++ tid)), st)
  else if ¬ validateAgentName an then
    (.error (.storageError ("Invalid agent name: " ++ an)), st)
  else
    let key := generateStateKey tid an
    match saveInner st now tid an key data merge tags with
    | (.ok ss, s) => (.ok ss, s)
    | (.error e, s) =>
      (.error (.storageError ("Failed to save agent state: " ++ e.str)), s)

/-- The deletion loop of `clear_thread_state`, counting successful
deletions. -/
def clearGo (tid : String) :
    List String → Nat → MemStore → Except SErr Nat × MemStore
  | [], count, st => (.ok count, st)
  | a :: rest, count, st =>
    match deleteAgentState st tid a with
    | (.error e, s) => (.error e, s)
    | (.ok deleted, s) => clearGo tid rest (if deleted then count + 1 else count) s

/-- `MemoryStateStore.clear_thread_state`: list the thread's agents, delete
each, return the number deleted. -/
def clearThreadState (st : MemStore) (now : Nat) (tid : String) :
    Except SErr Nat × MemStore :=
  if ¬ validateThreadId tid then
    (.error (.storageError ("Invalid thread ID: " ++ tid)), st)
  else
    match listThreadAgents st now tid with
    | (.error e, s) =>
      (.error (.storageError ("Failed to clear thread state: " ++ e.str)), s)
    | (.ok agents, s) =>
      match clearGo tid agents 0 s with
      | (.error e, s') =>
        (.error (.storageError ("Failed to clear thread state: " ++ e.str)), s')
      | (.ok n, s') => (.ok n, s')

/-! ## `StateStoreManager` (`manager.py`)

The model keeps the fields that carry storage semantics: the optional store
(`self._store`, `None` until initialized), the metadata cache with its
expiry map, and the construction-time configuration.  Metrics, logging and
the periodic health-check/backup tasks are omitted: they never feed back
into the state operations.  The schema validator has no registered schemas
here, so `validate_state` passes unconditionally (agents with no schema
always pass). -/

structure Manager where
  store : Option MemStore
  metadataCache : List (String × SMeta)
  cacheExpiry : List (String × Nat)
  config_max_size_mb : Nat
  config_default_ttl : Option Nat

/-- `StateStoreManager.__init__` with a memory-backend configuration:
no store yet, empty caches. -/
def managerNew (max_size_mb : Nat := 100)
    (default_ttl_seconds : Option Nat := some 3600) : Manager where
  store := none
  metadataCache := []
  cacheExpiry := []
  config_max_size_mb := max_size_mb
  config_default_ttl := default_ttl_seconds

/-- `StateStoreManager.initialize` for the memory backend: construct the
store from the configuration and run the initial health check (a sentinel
round-trip on the fresh backend).  Returns the created store along with the
updated manager. -/
def managerInit (m : Manager) (now : Nat) : MemStore × Manager :=
  let s0 := memStateStoreNew m.config_max_size_mb m.config_default_ttl
  let (_, b1) := backendHealthCheck s0.backend now
  let s1 := { s0 with backend := b1 }
  (s1, { m with store := some s1 })

/-- `StateStoreManager._ensure_store`: initialize lazily if and only if
`self._store` is `None`. -/
def ensureStore (m : Manager) (now : Nat) : MemStore × Manager :=
  match m.store with
  | some s => (s, m)
  | none => managerInit m now

/-- `StateStoreManager.shutdown`: cancel the background tasks (omitted
here), clean up the store (the backend clears its tables), and clear the
caches.  `self._store` itself is left in place. -/
def managerShutdown (m : Manager) : Manager :=
  let m1 :=
    match m.store with
    | some s =>
      { m with store := some { s with backend := backendCleanup s.backend } }
    | none => m
  { m1 with metadataCache := [], cacheExpiry := [] }

/-- `StateStoreManager.save_agent_state`: validate, ensure the store
(lazy initialization), delegate, refresh the metadata cache on success
(cache TTL 300 s), re-raise failures unchanged. -/
def managerSave (m : Manager) (now : Nat) (tid an : String)
    (data : StateData) (merge : Bool := true)
    (tags : Option (List (String × String)) := none) :
    Except SErr SState × Manager :=
  if ¬ validateThreadId tid then
    (.error (.storageError ("Invalid thread ID: " ++ tid)), m)
  else if ¬ validateAgentName an then
    (.error (.storageError ("Invalid agent name: " ++ an)), m)
  else
    let (s, m1) := ensureStore m now
    match saveAgentState s now tid an data merge tags with
    | (.ok ss, s') =>
      let ck := tid ++ ":" ++ an
      (.ok ss,
        { m1 with
          store := some s'
          metadataCache := AL.set m1.metadataCache ck ss.meta
          cacheExpiry := AL.set m1.cacheExpiry ck (now + 1000 * 300) })
    | (.error e, s') => (.error e, { m1 with store := some s' })

/-- `StateStoreManager.load_agent_state`: validate, ensure the store,
delegate, refresh or invalidate the cache, re-raise failures unchanged
(the manager records failure metrics and then `raise`s the same
exception). -/
def managerLoad (m : Manager) (now : Nat) (tid an : String) :
    Except SErr (Option SState) × Manager :=
  if ¬ validateThreadId tid then
    (.error (.storageError ("Invalid thread ID: " ++ tid)), m)
  else if ¬ validateAgentName an then
    (.error (.storageError ("Invalid agent name: " ++ an)), m)
  else
    let (s, m1) := ensureStore m now
    match loadAgentState s now tid an with
    | (.ok (some ss), s') =>
      let ck := tid ++ ":" ++ an
      (.ok (some ss),
        { m1 with
          store := some s'
          metadataCache := AL.set m1.metadataCache ck ss.meta
          cacheExpiry := AL.set m1.cacheExpiry ck (now + 1000 * 300) })
    | (.ok none, s') =>
      let ck := tid ++ ":" ++ an
      (.ok none,
        { m1 with
          store := some s'
          metadataCache := AL.erase m1.metadataCache ck
          cacheExpiry := AL.erase m1.cacheExpiry ck })
    | (.error e, s') => (.error e, { m1 with store := some s' })

/-- `StateStoreManager.delete_agent_state`: validate, ensure the store,
delegate, invalidate the cache. -/
def managerDelete (m : Manager) (now : Nat) (tid an : String) :
    Except SErr Bool × Manager :=
  if ¬ validateThreadId tid then
    (.error (.storageError ("Invalid thread ID: " ++ tid)), m)
  else if ¬ validateAgentName an then
    (.error (.storageError ("Invalid agent name: " ++ an)), m)
  else
    let (s, m1) := ensureStore m now
    let ck := tid ++ ":" ++ an
    match deleteAgentState s tid an with
    | (.ok deleted, s') =>
      (.ok deleted,
        { m1 with
          store := some s'
          metadataCache := AL.erase m1.metadataCache ck
          cacheExpiry := AL.erase m1.cacheExpiry ck })
    | (.error e, s') => (.error e, { m1 with store := some s' })

/-! ## Dictionary lemmas -/

namespace AL

theorem get?_eq_none_iff (l : List (String × β)) (k : String) :
    get? l k = none ↔ k ∉ keys l := by
  induction l with
  | nil => simp [get?, keys]
  | cons p ps ih =>
    obtain ⟨k', v⟩ := p
    by_cases h : k' = k
    · subst h; simp [get?, keys]
    · simp [get?, keys, h, ih, Ne.symm h]

theorem get?_mem {l : List (String × β)} {k : String} {v : β}
    (h : get? l k = some v) : (k, v) ∈ l := by
  induction l with
  | nil => simp [get?] at h
  | cons p ps ih =>
    obtain ⟨k', v'⟩ := p
    by_cases hk : k' = k
    · subst hk
      simp [get?] at h
      simp [h]
    · simp [get?, hk] at h
      simp [ih h]

theorem erase_sublist (l : List (String × β)) (k : String) :
    (erase l k).Sublist l := by
  induction l with
  | nil => simp [erase]
  | cons p ps ih =>
    obtain ⟨k', v'⟩ := p
    by_cases h : k' = k
    · simp [erase, h]
    · simpa [erase, h] using ih.cons₂ (k', v')

theorem get?_erase_of_none {l : List (String × β)} {k : String}
    (h : get? l k = none) (k' : String) : get? (erase l k') k = none := by
  rw [get?_eq_none_iff] at h ⊢
  intro hmem
  exact h (((erase_sublist l k').map Prod.fst).mem hmem)

theorem keys_nodup_erase {l : List (String × β)} {k : String}
    (h : (keys l).Nodup) : (keys (erase l k)).Nodup :=
  ((erase_sublist l k).map Prod.fst).nodup h

theorem get?_erase_self {l : List (String × β)} {k : String}
    (h : (keys l).Nodup) : get? (erase l k) k = none := by
  induction l with
  | nil => simp [erase, get?]
  | cons p ps ih =>
    obtain ⟨k', v'⟩ := p
    simp only [keys, List.map_cons, List.nodup_cons] at h
    by_cases hk : k' = k
    · subst hk
      simp only [erase, if_pos rfl]
      rw [get?_eq_none_iff]
      exact h.1
    · simp [erase, get?, hk, ih h.2]

theorem get?_erase_ne {l : List (String × β)} {k k' : String}
    (h : k' ≠ k) : get? (erase l k) k' = get? l k' := by
  induction l with
  | nil => simp [erase]
  | cons p ps ih =>
    obtain ⟨k₀, v₀⟩ := p
    by_cases hk : k₀ = k
    · subst hk
      simp [erase, get?, Ne.symm h]
    · by_cases hk' : k₀ = k'
      · subst hk'; simp [erase, get?, hk]
      · simp [erase, get?, hk, hk', ih]

theorem get?_set_self (l : List (String × β)) (k : String) (v : β) :
    get? (set l k v) k = some v := by
  induction l with
  | nil => simp [set, get?]
  | cons p ps ih =>
    obtain ⟨k', v'⟩ := p
    by_cases h : k' = k
    · subst h; simp [set, get?]
    · simp [set, get?, h, ih]

theorem get?_set_ne (l : List (String × β)) {k k' : String} (v : β)
    (h : k' ≠ k) : get? (set l k v) k' = get? l k' := by
  induction l with
  | nil => simp [set, get?, Ne.symm h]
  | cons p ps ih =>
    obtain ⟨k₀, v₀⟩ := p
    by_cases hk : k₀ = k
    · subst hk; simp [set, get?, Ne.symm h]
    · simp [set, get?, hk, ih]

theorem keys_set (l : List (String × β)) (k : String) (v : β) :
    keys (set l k v) = if k ∈ keys l then keys l else keys l ++ [k] := by
  induction l with
  | nil => simp [set, keys]
  | cons p ps ih =>
    obtain ⟨k', v'⟩ := p
    by_cases h : k' = k
    · subst h; simp [set, keys]
    · simp only [set, if_neg h, keys, List.map_cons] at ih ⊢
      rw [ih]
      by_cases hm : k ∈ List.map Prod.fst ps
      · simp [hm, Ne.symm h]
      · simp [hm, Ne.symm h]

theorem keys_nodup_set {l : List (String × β)} {k : String} (v : β)
    (h : (keys l).Nodup) : (keys (set l k v)).Nodup := by
  rw [keys_set]
  by_cases hm : k ∈ keys l
  · simpa [hm]
  · simp only [hm, if_false]
    exact List.Nodup.append h (List.nodup_singleton k)
      (by simpa using fun hx => fun (hk : k = k) => hm hx)

end AL

/-! ## Backend lemmas -/

theorem storage_removeKey (st : MemBackend) (k : String) :
    (removeKey st k).storage =
      match AL.get? st.storage k with
      | some _ => AL.erase st.storage k
      | none => st.storage := by
  unfold removeKey
  cases AL.get? st.storage k <;> rfl

theorem get?_storage_removeKey_self (st : MemBackend) (k : String)
    (h : (AL.keys st.storage).Nodup) :
    AL.get? (removeKey st k).storage k = none := by
  rw [storage_removeKey]
  cases hg : AL.get? st.storage k with
  | none => exact hg
  | some v => exact AL.get?_erase_self h

theorem get?_storage_removeKey_of_none (st : MemBackend) (k k' : String)
    (h : AL.get? st.storage k = none) :
    AL.get? (removeKey st k').storage k = none := by
  rw [storage_removeKey]
  cases AL.get? st.storage k' with
  | none => exact h
  | some v => exact AL.get?_erase_of_none h k'

theorem nodup_storage_removeKey (st : MemBackend) (k : String)
    (h : (AL.keys st.storage).Nodup) :
    (AL.keys (removeKey st k).storage).Nodup := by
  rw [storage_removeKey]
  cases AL.get? st.storage k with
  | none => exact h
  | some v => exact AL.keys_nodup_erase h

theorem fold_removeKey_none (ks : List String) (st : MemBackend) (k : String)
    (h : AL.get? st.storage k = none) :
    AL.get? (ks.foldl removeKey st).storage k = none := by
  induction ks generalizing st with
  | nil => exact h
  | cons a as ih =>
    exact ih (removeKey st a) (get?_storage_removeKey_of_none st k a h)

theorem fold_removeKey_nodup (ks : List String) (st : MemBackend)
    (h : (AL.keys st.storage).Nodup) :
    (AL.keys ((ks.foldl removeKey st).storage)).Nodup := by
  induction ks generalizing st with
  | nil => exact h
  | cons a as ih => exact ih (removeKey st a) (nodup_storage_removeKey st a h)

theorem fold_removeKey_mem (ks : List String) (st : MemBackend) (k : String)
    (hnd : (AL.keys st.storage).Nodup) (hk : k ∈ ks) :
    AL.get? (ks.foldl removeKey st).storage k = none := by
  induction ks generalizing st with
  | nil => cases hk
  | cons a as ih =>
    rcases List.mem_cons.mp hk with h | h
    · subst h
      exact fold_removeKey_none as (removeKey st k) k
        (get?_storage_removeKey_self st k hnd)
    · exact ih (removeKey st a) (nodup_storage_removeKey st a hnd) h

theorem cleanupExpired_get?_none (st : MemBackend) (now : Nat) (k : String)
    (em : EntryMeta) (hnd : (AL.keys st.storage).Nodup)
    (hm : AL.get? st.meta k = some em)
    (hexp : entryExpired now (some em) = true) :
    AL.get? (cleanupExpired st now).storage k = none := by
  unfold cleanupExpired
  apply fold_removeKey_mem _ _ _ hnd
  have hmem : (k, em) ∈ st.meta := AL.get?_mem hm
  exact List.mem_map.mpr ⟨(k, em), List.mem_filter.mpr ⟨hmem, hexp⟩, rfl⟩

/-! ## Result observers (shape-only views of operation results) -/

/-- The data payload of a load result: `none` when the call raised. -/
def loadView (r : Except SErr (Option SState)) : Option (Option StateData) :=
  match r with
  | .ok o => some (o.map SState.data)
  | .error _ => none

/-- Did a load return successfully with no state? -/
def isOkNone (r : Except SErr (Option SState)) : Bool :=
  match r with
  | .ok none => true
  | _ => false

/-- Version stored by a successful save (`none` when the call raised). -/
def okVersion (r : Except SErr SState) : Option Nat :=
  match r with
  | .ok ss => some ss.meta.version
  | .error _ => none

/-- Data stored by a successful save (`none` when the call raised). -/
def okData (r : Except SErr SState) : Option StateData :=
  match r with
  | .ok ss => some ss.data
  | .error _ => none

/-- Tags stored by a successful save (`none` when the call raised). -/
def okTags (r : Except SErr SState) : Option (List (String × String)) :=
  match r with
  | .ok ss => some ss.meta.tags
  | .error _ => none

/-- The `error_code` of a raised error (`none` on success). -/
def errCode {γ : Type} (r : Except SErr γ) : Option String :=
  match r with
  | .error e => some e.code
  | .ok _ => none

/-! ## Claim C10 -/

/-- C10: for a key still physically present in the backend's table whose TTL
has elapsed, `delete` returns `True` and removes the entry — it never
consults the expiry timestamp — even though `get` invoked at the same
moment returns `None`. -/
theorem C10_delete_ignores_expiry
    (st : MemBackend) (now : Nat) (k : String) (v : Blob)
    (hnd : (AL.keys st.storage).Nodup)
    (hv : AL.get? st.storage k = some v)
    (hexp : entryExpired now (AL.get? st.meta k) = true) :
    backendDelete st k = (true, removeKey st k) ∧
    AL.get? (backendDelete st k).2.storage k = none ∧
    (backendGet st now k).1 = none := by
  have hdel : backendDelete st k = (true, removeKey st k) := by
    simp [backendDelete, AL.hasKey, hv]
  refine ⟨hdel, ?_, ?_⟩
  · rw [hdel]
    exact get?_storage_removeKey_self st k hnd
  · simp [backendGet, hv, hexp]

/-- A backend holding one entry written at t=0 with the backend default TTL
of 1 second (expiry at t=1000 ms), observed at t=1500 ms. -/
def bst10 : MemBackend :=
  backendSet (memBackendNew 100 (some 1)) 0 "k10" (Blob.junk 3) none

theorem C10_delete_ignores_expiry_witness :
    backendDelete bst10 "k10" = (true, removeKey bst10 "k10") ∧
    AL.get? (backendDelete bst10 "k10").2.storage "k10" = none ∧
    (backendGet bst10 1500 "k10").1 = none :=
  C10_delete_ignores_expiry bst10 1500 "k10" (Blob.junk 3) (by decide) rfl rfl

/-! ## Claim C3 -/

/-- The store of the TTL scenario of §8 of the spec: a state saved at t=0
on a store whose backend default TTL is 1 second. -/
def chefStore : MemStore :=
  (saveAgentState (memStateStoreNew 100 (some 1) 50) 0 "t1" "chef"
    [("step", JVal.jstr "start")] true none).2

/-- C3: an entry whose TTL has elapsed is treated as absent by every read
path even before physical removal — `get` returns `None`, `exists` returns
`False`, `list_keys` omits the key — and a state saved with a 1-second TTL
is still loadable at t=0.5 s while `load_agent_state` returns `None` (not
an error) at t=1.5 s. -/
theorem C3_expired_entries_absent
    (st : MemBackend) (now : Nat) (k : String) (v : Blob)
    (hnd : (AL.keys st.storage).Nodup)
    (hv : AL.get? st.storage k = some v)
    (hexp : entryExpired now (AL.get? st.meta k) = true) :
    (backendGet st now k).1 = none ∧
    (backendExists st now k).1 = false ∧
    (∀ pre, k ∉ (backendListKeys st now pre).1) ∧
    loadView (loadAgentState chefStore 500 "t1" "chef").1 =
      some (some [("step", JVal.jstr "start")]) ∧
    isOkNone (loadAgentState chefStore 1500 "t1" "chef").1 = true := by
  obtain ⟨em, hm⟩ : ∃ em, AL.get? st.meta k = some em := by
    cases hmm : AL.get? st.meta k with
    | none => rw [hmm] at hexp; simp [entryExpired] at hexp
    | some em => exact ⟨em, rfl⟩
  refine ⟨?_, ?_, ?_, by rfl, by rfl⟩
  · simp [backendGet, hv, hexp]
  · simp [backendExists, hv, hexp]
  · intro pre hmem
    have hnone : AL.get? (cleanupExpired st now).storage k = none :=
      cleanupExpired_get?_none st now k em hnd hm (by rw [hm] at hexp; exact hexp)
    rw [AL.get?_eq_none_iff] at hnone
    apply hnone
    simp only [backendListKeys] at hmem
    split at hmem
    · obtain ⟨p, hp, hpk⟩ := List.mem_map.mp hmem
      exact hpk ▸ List.mem_map.mpr ⟨p, (List.mem_filter.mp hp).1, rfl⟩
    · exact hmem

/-- A backend with one entry written at t=0 with an explicit 1-second TTL,
observed at t=1500 ms. -/
def bst3 : MemBackend :=
  backendSet (memBackendNew 100 none) 0 "k3" (Blob.junk 5) (some 1)

theorem C3_expired_entries_absent_witness :
    (backendGet bst3 1500 "k3").1 = none ∧
    (backendExists bst3 1500 "k3").1 = false ∧
    "k3" ∉ (backendListKeys bst3 1500 "").1 ∧
    loadView (loadAgentState chefStore 500 "t1" "chef").1 =
      some (some [("step", JVal.jstr "start")]) ∧
    isOkNone (loadAgentState chefStore 1500 "t1" "chef").1 = true := by
  have T := C3_expired_entries_absent bst3 1500 "k3" (Blob.junk 5) (by decide)
    rfl rfl
  exact ⟨T.1, T.2.1, T.2.2.1 "", T.2.2.2.1, T.2.2.2.2⟩

/-! ## Claim C6 -/

/-- A store with the library defaults (100 MB, 1-hour TTL, 50 states per
thread). -/
def freshStore : MemStore := memStateStoreNew 100 (some 3600) 50

/-- C6 (behavior at the failing input): the thread id `"t\n"` contains a
character outside `[A-Za-z0-9_-]`, so by the claim every state-store
operation must raise `StorageError` before any backend I/O; but
`validate_thread_id` accepts it (CPython `$` also matches just before one
trailing newline), and `save_agent_state` proceeds to the backend and
stores an envelope under the derived key `"copilotkit:state:t\n:agent1"`
instead of raising. -/
theorem C6_trailing_newline_validates :
    isIdentChar '\n' = false ∧
    '\n' ∈ ("t\n" : String).data ∧
    validateThreadId "t\n" = true ∧
    okVersion (saveAgentState freshStore 0 "t\n" "agent1"
      [("x", JVal.jint 1)] true none).1 = some 1 ∧
    AL.hasKey (saveAgentState freshStore 0 "t\n" "agent1"
      [("x", JVal.jint 1)] true none).2.backend.storage
      "copilotkit:state:t\n:agent1" = true := by
  refine ⟨rfl, by decide, by decide, rfl, by decide⟩

/-! ## Claim C5 -/

/-- A store whose backend holds, under the state key of `("t1","agent1")`,
a byte string that is not valid JSON (for instance `b"not json"`, 8
bytes). -/
def junkStore : MemStore :=
  { freshStore with
    backend := backendSet freshStore.backend 0 "copilotkit:state:t1:agent1"
      (Blob.junk 8) none }

/-- A manager already initialized with `junkStore` as its store. -/
def junkManager : Manager :=
  { managerNew 100 (some 3600) with store := some junkStore }

/-- C5 (behavior at the failing input): `deserialize_state` does raise a
`StateCorruptionError`, but it names the offending key as the literal
string `"deserialization"` (not the state key), and
`MemoryStateStore.load_agent_state`'s blanket `except` replaces it with a
fresh generic `StorageError` (error code `STORAGE_ERROR`), which is what
the manager then re-raises unchanged — the caller never receives a
`StateCorruptionError`. -/
theorem C5_corruption_error_wrapped :
    deserializeState (Blob.junk 8) =
      .error (.stateCorruption "deserialization"
        "Failed to deserialize state data: invalid JSON") ∧
    errCode (loadAgentState junkStore 100 "t1" "agent1").1 =
      some "STORAGE_ERROR" ∧
    errCode (managerLoad junkManager 100 "t1" "agent1").1 =
      some "STORAGE_ERROR" ∧
    (managerLoad junkManager 100 "t1" "agent1").1 =
      (loadAgentState junkStore 100 "t1" "agent1").1 := by
  refine ⟨rfl, rfl, rfl, rfl⟩

/-! ## Claim C8 -/

theorem loadAgentState_empty (s : MemStore) (now : Nat) (tid an : String)
    (hb : s.backend.storage = [])
    (ht : validateThreadId tid = true) (hn : validateAgentName an = true) :
    loadAgentState s now tid an = (.ok none, s) := by
  unfold loadAgentState backendGet
  simp [ht, hn, hb, AL.get?]

theorem listThreadAgents_empty (s : MemStore) (now : Nat) (tid : String)
    (hb : s.backend.storage = []) (hm : s.backend.meta = [])
    (ht : validateThreadId tid = true) :
    listThreadAgents s now tid = (.ok [], s) := by
  unfold listThreadAgents backendListKeys cleanupExpired
  simp only [ht, hm, hb, List.filter_nil, List.map_nil, List.foldl_nil,
    not_true_eq_false, Bool.false_eq_true, if_false]
  split <;> simp [hb, AL.keys, pySorted]

theorem enforceThreadLimits_empty (s : MemStore) (now : Nat) (tid an : String)
    (hb : s.backend.storage = []) (hm : s.backend.meta = [])
    (ht : validateThreadId tid = true) :
    enforceThreadLimits s now tid an = (.ok (), s) := by
  unfold enforceThreadLimits
  rw [listThreadAgents_empty s now tid hb hm ht]
  have hag : (if an ≠ "" then List.filter (fun a => a ≠ an) [] else []) =
      ([] : List String) := by split <;> simp
  simp only [hag, List.length_nil]
  split
  · simp [collectMeta, pySorted, deleteOldest]
  · rfl

theorem save_on_empty_tables_ok (s : MemStore) (now : Nat) (tid an : String)
    (d : StateData) (tags : Option (List (String × String)))
    (hb : s.backend.storage = []) (hm : s.backend.meta = [])
    (ht : validateThreadId tid = true) (hn : validateAgentName an = true) :
    okVersion (saveAgentState s now tid an d true tags).1 = some 1 := by
  unfold saveAgentState saveInner
  rw [loadAgentState_empty s now tid an hb ht hn]
  simp only [ht, hn, Bool.not_true, Bool.false_eq_true, not_false_eq_true,
    if_false, if_true]
  rw [enforceThreadLimits_empty s now tid an hb hm ht]
  simp [okVersion]

/-- A manager explicitly initialized at t=0 with the default memory
configuration. -/
def m8 : Manager := (managerInit (managerNew 100 (some 3600)) 0).2

/-- The store created by that initialization. -/
def s8 : MemStore := (managerInit (managerNew 100 (some 3600)) 0).1

/-- C8 (counterexample): after explicit `initialize` followed by
`shutdown`, a state operation is still accepted — `save_agent_state`
succeeds (returning a version-1 stored state) because `shutdown` leaves
`self._store` in place and `_ensure_store` only checks that it is not
`None`; there is no rejecting STOPPED state. -/
theorem C8_counterexample :
    (managerShutdown m8).store.isSome = true ∧
    okVersion (managerSave (managerShutdown m8) 1000 "t1" "a1"
      [("x", JVal.jint 1)] true none).1 = some 1 :=
  ⟨rfl, rfl⟩

/-- C8 (amended): a fresh manager has no store (UNINITIALIZED) and its
first state operation lazily initializes one and succeeds; `shutdown`
cleans the store's backend tables and clears the caches but keeps the store
handle, so a state operation invoked after shutdown is accepted as well,
running against the cleaned store. -/
theorem C8_lifecycle
    (m : Manager) (s : MemStore) (now : Nat) (tid an : String) (d : StateData)
    (hs : m.store = some s)
    (ht : validateThreadId tid = true) (hn : validateAgentName an = true) :
    (managerNew 100 (some 3600)).store = none ∧
    okVersion (managerSave (managerNew 100 (some 3600)) 0 "t1" "a1"
      [("x", JVal.jint 1)] true none).1 = some 1 ∧
    (managerSave (managerNew 100 (some 3600)) 0 "t1" "a1"
      [("x", JVal.jint 1)] true none).2.store.isSome = true ∧
    (managerShutdown m).store =
      some { s with backend := backendCleanup s.backend } ∧
    okVersion (managerSave (managerShutdown m) now tid an d true none).1 =
      some 1 := by
  have hsd : (managerShutdown m).store =
      some { s with backend := backendCleanup s.backend } := by
    simp [managerShutdown, hs]
  refine ⟨rfl, rfl, rfl, hsd, ?_⟩
  unfold managerSave
  simp only [ht, hn, not_true_eq_false, Bool.false_eq_true, if_false]
  simp only [ensureStore, hsd]
  have hok := save_on_empty_tables_ok
    { s with backend := backendCleanup s.backend } now tid an d none rfl rfl
    ht hn
  rcases hsv : saveAgentState { s with backend := backendCleanup s.backend }
      now tid an d true none with ⟨r, s2⟩
  rw [hsv] at hok
  cases r with
  | ok ss => simpa [okVersion] using hok
  | error e => simp [okVersion] at hok

theorem C8_lifecycle_witness :
    (managerNew 100 (some 3600)).store = none ∧
    okVersion (managerSave (managerShutdown m8) 1000 "t2" "a2"
      [("y", JVal.jint 2)] true none).1 = some 1 := by
  have T := C8_lifecycle m8 s8 1000 "t2" "a2" [("y", JVal.jint 2)] rfl
    (by decide) (by decide)
  exact ⟨T.1, T.2.2.2.2⟩

/-! ## Characterization of saves over a loaded prior state -/

/-- `a` if present, else `b`: the lookup semantics of a shallow dict
union. -/
def orFallback (a b : Option β) : Option β :=
  match a with
  | some v => some v
  | none => b

theorem AL.get?_update (old new : List (String × β)) (k : String)
    (hnd : (AL.keys new).Nodup) :
    AL.get? (AL.update old new) k =
      orFallback (AL.get? new k) (AL.get? old k) := by
  induction new generalizing old with
  | nil => simp [AL.update, AL.get?, orFallback]
  | cons p ps ih =>
    obtain ⟨k0, v0⟩ := p
    simp only [AL.keys, List.map_cons, List.nodup_cons] at hnd
    have step : AL.update old ((k0, v0) :: ps) = AL.update (AL.set old k0 v0) ps := by
      simp [AL.update]
    rw [step, ih _ hnd.2]
    by_cases hk : k0 = k
    · subst hk
      have hnone : AL.get? ps k0 = none := by
        rw [AL.get?_eq_none_iff]; exact hnd.1
      simp [AL.get?, hnone, AL.get?_set_self, orFallback]
    · simp [AL.get?, hk, AL.get?_set_ne old v0 (Ne.symm hk), orFallback]

theorem save_merge_ok (st : MemStore) (now : Nat) (tid an : String)
    (d : StateData) (tags : Option (List (String × String))) (r : Option SState)
    (ht : validateThreadId tid = true) (hn : validateAgentName an = true)
    (hload : (loadAgentState st now tid an).1 = .ok r)
    (henf : (enforceThreadLimits (loadAgentState st now tid an).2 now tid
      an).1 = .ok ()) :
    okVersion (saveAgentState st now tid an d true tags).1 =
      some (match r with | some es => es.meta.version + 1 | none => 1) ∧
    okData (saveAgentState st now tid an d true tags).1 =
      some (match r with | some es => AL.update es.data d | none => d) ∧
    okTags (saveAgentState st now tid an d true tags).1 =
      some (tags.getD []) := by
  set st1 : MemStore := (loadAgentState st now tid an).2 with hst1
  have hl : loadAgentState st now tid an = (Except.ok r, st1) := by
    have h := (Prod.mk.eta (p := loadAgentState st now tid an)).symm
    rw [hload, ← hst1] at h
    exact h
  set st2 : MemStore := (enforceThreadLimits st1 now tid an).2 with hst2
  have he : enforceThreadLimits st1 now tid an = (Except.ok (), st2) := by
    have h := (Prod.mk.eta (p := enforceThreadLimits st1 now tid an)).symm
    rw [henf, ← hst2] at h
    exact h
  unfold saveAgentState saveInner
  simp only [ht, hn, not_true_eq_false, Bool.false_eq_true, if_false, if_true]
  simp only [hl]
  simp only [he]
  cases r <;> simp [okVersion, okData, okTags]

theorem save_replace_ok (st : MemStore) (now : Nat) (tid an : String)
    (d : StateData) (tags : Option (List (String × String)))
    (ht : validateThreadId tid = true) (hn : validateAgentName an = true)
    (henf : (enforceThreadLimits st now tid an).1 = .ok ()) :
    okVersion (saveAgentState st now tid an d false tags).1 = some 1 ∧
    okData (saveAgentState st now tid an d false tags).1 = some d ∧
    okTags (saveAgentState st now tid an d false tags).1 =
      some (tags.getD []) := by
  set st2 : MemStore := (enforceThreadLimits st now tid an).2 with hst2
  have he : enforceThreadLimits st now tid an = (Except.ok (), st2) := by
    have h := (Prod.mk.eta (p := enforceThreadLimits st now tid an)).symm
    rw [henf, ← hst2] at h
    exact h
  unfold saveAgentState saveInner
  simp only [ht, hn, not_true_eq_false, Bool.false_eq_true, if_false,
    Bool.false_eq_true]
  simp only [he]
  simp [okVersion, okData, okTags]

/-! ## Claim C1 -/

/-- The store after a first save of `{"a": 1}` for `("t1","a1")` at
t=1000 ms. -/
def c1st1 : MemStore :=
  (saveAgentState freshStore 1000 "t1" "a1" [("a", JVal.jint 1)] true none).2

/-- The stored state that first save produced (version 1). -/
def c1prior : SState where
  state_key := "copilotkit:state:t1:a1"
  data := [("a", JVal.jint 1)]
  meta :=
    { created_at := 1000
      updated_at := 1000
      version := 1
      size_bytes := dataBytesLen [("a", JVal.jint 1)]
      checksum := some (sha256Model [("a", JVal.jint 1)])
      tags := [] }

/-- C1 (counterexample): after a successful version-1 save, a second
successful save to the same `(thread_id, agent_name)` with
`merge_with_existing=False` stores version 1 again, not the prior version
plus 1 — `existing_state` is only loaded on the merge path. -/
theorem C1_counterexample :
    okVersion (saveAgentState freshStore 1000 "t1" "a1"
      [("a", JVal.jint 1)] true none).1 = some 1 ∧
    okVersion (saveAgentState c1st1 2000 "t1" "a1"
      [("b", JVal.jint 2)] false none).1 = some 1 ∧
    okVersion (saveAgentState c1st1 2000 "t1" "a1"
      [("b", JVal.jint 2)] false none).1 ≠ some (1 + 1) :=
  ⟨rfl, rfl, by decide⟩

/-- C1 (amended): the first successful save of a key stores version 1 and a
subsequent successful save with `merge_with_existing=true` stores the prior
version plus exactly 1, but a save with `merge_with_existing=false` never
consults the prior envelope and always stores version 1. -/
theorem C1_version_increments_only_on_merge
    (st : MemStore) (now : Nat) (tid an : String) (d d' : StateData)
    (tags tags' : Option (List (String × String))) (r : Option SState)
    (ht : validateThreadId tid = true) (hn : validateAgentName an = true)
    (hload : (loadAgentState st now tid an).1 = .ok r)
    (henfT : (enforceThreadLimits (loadAgentState st now tid an).2 now tid
      an).1 = .ok ())
    (henfF : (enforceThreadLimits st now tid an).1 = .ok ()) :
    okVersion (saveAgentState st now tid an d true tags).1 =
      some (match r with | some es => es.meta.version + 1 | none => 1) ∧
    okVersion (saveAgentState st now tid an d' false tags').1 = some 1 :=
  ⟨(save_merge_ok st now tid an d tags r ht hn hload henfT).1,
   (save_replace_ok st now tid an d' tags' ht hn henfF).1⟩

theorem C1_version_increments_only_on_merge_witness :
    okVersion (saveAgentState c1st1 2000 "t1" "a1"
      [("b", JVal.jint 2)] true none).1 = some 2 ∧
    okVersion (saveAgentState c1st1 2000 "t1" "a1"
      [("b", JVal.jint 2)] false none).1 = some 1 := by
  have T := C1_version_increments_only_on_merge c1st1 2000 "t1" "a1"
    [("b", JVal.jint 2)] [("b", JVal.jint 2)] none none (some c1prior)
    (by decide) (by decide) rfl rfl rfl
  exact ⟨T.1, T.2⟩

/-! ## Claim C4 -/

/-- The store after saving `{"a": 1, "b": 2}` for `("t4","a4")` at
t=1000 ms. -/
def c4st1 : MemStore :=
  (saveAgentState freshStore 1000 "t4" "a4"
    [("a", JVal.jint 1), ("b", JVal.jint 2)] true none).2

/-- C4: a merge save computes the final data as a shallow, top-level union
of the existing and the incoming data — the incoming value wins on key
collisions and nested objects are replaced wholesale, not merged
recursively — and the spec's example `{"a":1,"b":2}` then `{"b":3,"c":4}`
with merge yields `{"a":1,"b":3,"c":4}` at version 2. -/
theorem C4_shallow_merge
    (st : MemStore) (now : Nat) (tid an : String) (d : StateData)
    (tags : Option (List (String × String))) (es : SState)
    (ht : validateThreadId tid = true) (hn : validateAgentName an = true)
    (hnd : (AL.keys d).Nodup)
    (hload : (loadAgentState st now tid an).1 = .ok (some es))
    (henf : (enforceThreadLimits (loadAgentState st now tid an).2 now tid
      an).1 = .ok ()) :
    okData (saveAgentState st now tid an d true tags).1 =
      some (AL.update es.data d) ∧
    (∀ k, AL.get? (AL.update es.data d) k =
      orFallback (AL.get? d k) (AL.get? es.data k)) ∧
    okData (saveAgentState c4st1 2000 "t4" "a4"
      [("b", JVal.jint 3), ("c", JVal.jint 4)] true none).1 =
      some [("a", JVal.jint 1), ("b", JVal.jint 3), ("c", JVal.jint 4)] ∧
    okVersion (saveAgentState c4st1 2000 "t4" "a4"
      [("b", JVal.jint 3), ("c", JVal.jint 4)] true none).1 = some 2 :=
  ⟨(save_merge_ok st now tid an d tags (some es) ht hn hload henf).2.1,
   fun k => AL.get?_update es.data d k hnd, rfl, rfl⟩

/-- The prior stored state of the C4 scenario. -/
def c4prior : SState where
  state_key := "copilotkit:state:t4:a4"
  data := [("a", JVal.jint 1), ("b", JVal.jint 2)]
  meta :=
    { created_at := 1000
      updated_at := 1000
      version := 1
      size_bytes := dataBytesLen [("a", JVal.jint 1), ("b", JVal.jint 2)]
      checksum := some (sha256Model [("a", JVal.jint 1), ("b", JVal.jint 2)])
      tags := [] }

theorem C4_shallow_merge_witness :
    okData (saveAgentState c4st1 2000 "t4" "a4"
      [("b", JVal.jint 3), ("c", JVal.jint 4)] true none).1 =
      some (AL.update c4prior.data [("b", JVal.jint 3), ("c", JVal.jint 4)]) ∧
    AL.get? (AL.update c4prior.data [("b", JVal.jint 3), ("c", JVal.jint 4)])
      "a" = some (JVal.jint 1) := by
  have T := C4_shallow_merge c4st1 2000 "t4" "a4"
    [("b", JVal.jint 3), ("c", JVal.jint 4)] none c4prior
    (by decide) (by decide) (by decide) rfl rfl
  refine ⟨T.1, ?_⟩
  rw [T.2.1 "a"]
  rfl

/-! ## Claim C9 -/

/-- C9: a merge save whose `tags` argument is omitted or `None` stores an
empty tags map — the prior entry's tags are dropped even though the prior
data fields are preserved by the merge. -/
theorem C9_tags_dropped_when_omitted
    (st : MemStore) (now : Nat) (tid an : String) (d : StateData)
    (es : SState)
    (ht : validateThreadId tid = true) (hn : validateAgentName an = true)
    (hload : (loadAgentState st now tid an).1 = .ok (some es))
    (henf : (enforceThreadLimits (loadAgentState st now tid an).2 now tid
      an).1 = .ok ()) :
    okTags (saveAgentState st now tid an d true none).1 = some [] ∧
    okData (saveAgentState st now tid an d true none).1 =
      some (AL.update es.data d) := by
  have T := save_merge_ok st now tid an d none (some es) ht hn hload henf
  exact ⟨T.2.2, T.2.1⟩

/-- The store after saving for `("t9","a9")` with non-empty tags. -/
def c9st1 : MemStore :=
  (saveAgentState freshStore 1000 "t9" "a9" [("a", JVal.jint 1)] true
    (some [("owner", "alice")])).2

/-- The prior stored state of the C9 scenario (non-empty tags). -/
def c9prior : SState where
  state_key := "copilotkit:state:t9:a9"
  data := [("a", JVal.jint 1)]
  meta :=
    { created_at := 1000
      updated_at := 1000
      version := 1
      size_bytes := dataBytesLen [("a", JVal.jint 1)]
      checksum := some (sha256Model [("a", JVal.jint 1)])
      tags := [("owner", "alice")] }

theorem C9_tags_dropped_when_omitted_witness :
    c9prior.meta.tags ≠ [] ∧
    okTags (saveAgentState c9st1 2000 "t9" "a9"
      [("b", JVal.jint 2)] true none).1 = some [] ∧
    okData (saveAgentState c9st1 2000 "t9" "a9"
      [("b", JVal.jint 2)] true none).1 =
      some (AL.update c9prior.data [("b", JVal.jint 2)]) := by
  have T := C9_tags_dropped_when_omitted c9st1 2000 "t9" "a9"
    [("b", JVal.jint 2)] c9prior (by decide) (by decide) rfl rfl
  exact ⟨by decide, T.1, T.2⟩

/-! ## Backend well-formedness and size accounting -/

/-- Total bytes actually held: the sum of the stored values' sizes. -/
def sumSizes (l : List (String × Blob)) : Nat :=
  (l.map (fun p => blobSize p.2)).sum

/-- The size the backend would free by dropping `k` (0 when absent). -/
def oldSizeOf (l : List (String × Blob)) (k : String) : Nat :=
  match AL.get? l k with
  | some w => blobSize w
  | none => 0

/-- The states reachable by the Python backend: duplicate-free storage
keys, the three tables keyed identically, and the `_total_size_bytes`
counter equal to the actual sum of stored sizes. -/
def BackendWF (st : MemBackend) : Prop :=
  (AL.keys st.storage).Nodup ∧
  AL.keys st.meta = AL.keys st.storage ∧
  AL.keys st.access_times = AL.keys st.storage ∧
  st.total_size_bytes = (sumSizes st.storage : Int)

namespace AL

theorem keys_erase (l : List (String × β)) (k : String) :
    keys (erase l k) = (keys l).erase k := by
  induction l with
  | nil => simp [erase, keys]
  | cons p ps ih =>
    obtain ⟨k0, v0⟩ := p
    by_cases h : k0 = k
    · subst h; simp [erase, keys, List.erase_cons]
    · have hbeq : (k0 == k) = false := by simp [h]
      simp only [erase, if_neg h, keys, List.map_cons, List.erase_cons, hbeq,
        Bool.false_eq_true, if_false]
      simpa [keys] using ih

theorem erase_of_not_mem {l : List (String × β)} {k : String}
    (h : k ∉ keys l) : erase l k = l := by
  induction l with
  | nil => rfl
  | cons p ps ih =>
    obtain ⟨k0, v0⟩ := p
    simp only [keys, List.map_cons, List.mem_cons] at h
    push_neg at h
    simp [erase, Ne.symm h.1, ih h.2]

end AL

theorem sumSizes_erase {l : List (String × Blob)} {k : String} {v : Blob}
    (h : AL.get? l k = some v) :
    sumSizes l = blobSize v + sumSizes (AL.erase l k) := by
  induction l with
  | nil => simp [AL.get?] at h
  | cons p ps ih =>
    obtain ⟨k0, v0⟩ := p
    by_cases hk : k0 = k
    · subst hk
      have h' : v0 = v := by simpa [AL.get?] using h
      subst h'
      simp [sumSizes, AL.erase]
    · simp only [AL.get?, if_neg hk] at h
      simp only [sumSizes, AL.erase, if_neg hk, List.map_cons, List.sum_cons]
      have := ih h
      simp only [sumSizes] at this
      omega

theorem sumSizes_set (l : List (String × Blob)) (k : String) (v : Blob) :
    sumSizes (AL.set l k v) + oldSizeOf l k = sumSizes l + blobSize v := by
  induction l with
  | nil => simp [AL.set, sumSizes, oldSizeOf, AL.get?]
  | cons p ps ih =>
    obtain ⟨k0, v0⟩ := p
    by_cases hk : k0 = k
    · subst hk
      simp [AL.set, sumSizes, oldSizeOf, AL.get?]
      omega
    · simp only [AL.set, if_neg hk, sumSizes, oldSizeOf, AL.get?,
        List.map_cons, List.sum_cons] at ih ⊢
      omega

theorem removeKey_fields (st : MemBackend) (k : String) :
    (removeKey st k).max_size_bytes = st.max_size_bytes ∧
    (removeKey st k).default_ttl_seconds = st.default_ttl_seconds := by
  unfold removeKey
  cases AL.get? st.storage k <;> exact ⟨rfl, rfl⟩

theorem BackendWF_removeKey {st : MemBackend} (k : String)
    (h : BackendWF st) : BackendWF (removeKey st k) := by
  obtain ⟨hnd, hmk, hak, htot⟩ := h
  unfold removeKey
  cases hg : AL.get? st.storage k with
  | none =>
    have hnot : k ∉ AL.keys st.storage := by
      rw [← AL.get?_eq_none_iff]; exact hg
    refine ⟨hnd, ?_, ?_, htot⟩
    · rw [AL.keys_erase, hmk, List.erase_of_not_mem hnot]
    · rw [AL.keys_erase, hak, List.erase_of_not_mem hnot]
  | some v =>
    refine ⟨?_, ?_, ?_, ?_⟩
    · simpa [AL.keys_erase] using hnd.erase k
    · simp [AL.keys_erase, hmk]
    · simp [AL.keys_erase, hak]
    · have hs := sumSizes_erase hg
      simp only []
      rw [htot]
      rw [hs]
      push_cast
      ring

theorem fold_removeKey_WF (ks : List String) (st : MemBackend)
    (h : BackendWF st) : BackendWF (ks.foldl removeKey st) := by
  induction ks generalizing st with
  | nil => exact h
  | cons a as ih => exact ih (removeKey st a) (BackendWF_removeKey a h)

theorem fold_removeKey_max (ks : List String) (st : MemBackend) :
    (ks.foldl removeKey st).max_size_bytes = st.max_size_bytes := by
  induction ks generalizing st with
  | nil => rfl
  | cons a as ih => rw [List.foldl_cons, ih, (removeKey_fields st a).1]

theorem cleanupExpired_WF (st : MemBackend) (now : Nat) (h : BackendWF st) :
    BackendWF (cleanupExpired st now) :=
  fold_removeKey_WF _ st h

theorem cleanupExpired_max (st : MemBackend) (now : Nat) :
    (cleanupExpired st now).max_size_bytes = st.max_size_bytes :=
  fold_removeKey_max _ st

theorem evictGo_nil (exclude : String) (needed : Int) (st : MemBackend)
    (ev : Int) : evictGo exclude needed [] st ev = (st, ev) := rfl

theorem evictGo_cons (exclude : String) (needed : Int) (a : String)
    (as : List String) (st : MemBackend) (ev : Int) :
    evictGo exclude needed (a :: as) st ev =
      if a = exclude then evictGo exclude needed as st ev
      else
        match AL.get? st.storage a with
        | none => evictGo exclude needed as st ev
        | some v =>
          if ev + (blobSize v : Int) ≥ needed then
            ({ removeKey st a with eviction_count := st.eviction_count + 1 },
              ev + (blobSize v : Int))
          else
            evictGo exclude needed as
              { removeKey st a with eviction_count := st.eviction_count + 1 }
              (ev + (blobSize v : Int)) := by
  rw [evictGo]

theorem evictGo_spec (exclude : String) (needed : Int) (ks : List String) :
    ∀ (st : MemBackend) (ev : Int), BackendWF st →
    (∀ k ∈ AL.keys st.storage, k ≠ exclude → k ∈ ks) →
    BackendWF (evictGo exclude needed ks st ev).1 ∧
    (evictGo exclude needed ks st ev).1.max_size_bytes = st.max_size_bytes ∧
    AL.get? (evictGo exclude needed ks st ev).1.storage exclude =
      AL.get? st.storage exclude ∧
    (evictGo exclude needed ks st ev).2 +
      (sumSizes (evictGo exclude needed ks st ev).1.storage : Int) =
      ev + (sumSizes st.storage : Int) ∧
    ((evictGo exclude needed ks st ev).2 ≥ needed ∨
      ∀ k ∈ AL.keys (evictGo exclude needed ks st ev).1.storage,
        k = exclude) := by
  induction ks with
  | nil =>
    intro st ev hWF hcov
    rw [evictGo_nil]
    refine ⟨hWF, rfl, rfl, by ring, .inr ?_⟩
    intro k hk
    by_contra hne
    exact absurd (hcov k hk hne) (List.not_mem_nil k)
  | cons a as ih =>
    intro st ev hWF hcov
    rw [evictGo_cons]
    by_cases ha : a = exclude
    · rw [if_pos ha]
      subst ha
      exact ih st ev hWF (fun k hk hne =>
        (List.mem_cons.mp (hcov k hk hne)).resolve_left hne)
    · rw [if_neg ha]
      cases hg : AL.get? st.storage a with
      | none =>
        have hcov' : ∀ k ∈ AL.keys st.storage, k ≠ exclude → k ∈ as := by
          intro k hk hne
          rcases List.mem_cons.mp (hcov k hk hne) with h | h
          · subst h
            rw [AL.get?_eq_none_iff] at hg
            exact absurd hk hg
          · exact h
        exact ih st ev hWF hcov'
      | some v =>
        have hWFr : BackendWF
            { removeKey st a with eviction_count := st.eviction_count + 1 } :=
          BackendWF_removeKey a hWF
        have hstor :
            ({ removeKey st a with
               eviction_count := st.eviction_count + 1 } : MemBackend).storage
              = AL.erase st.storage a := by
          rw [show ({ removeKey st a with
              eviction_count := st.eviction_count + 1 } : MemBackend).storage
              = (removeKey st a).storage from rfl, storage_removeKey, hg]
        have hsumc : (sumSizes st.storage : Int) =
            (blobSize v : Int) + (sumSizes (AL.erase st.storage a) : Int) := by
          rw [sumSizes_erase hg]; push_cast; ring
        have hmax :
            ({ removeKey st a with
               eviction_count := st.eviction_count + 1 } : MemBackend).max_size_bytes
              = st.max_size_bytes := (removeKey_fields st a).1
        have hexg :
            AL.get? ({ removeKey st a with
              eviction_count := st.eviction_count + 1 } : MemBackend).storage
              exclude = AL.get? st.storage exclude := by
          rw [hstor]
          exact AL.get?_erase_ne (fun h => ha h.symm)
        dsimp only
        by_cases hstop : ev + (blobSize v : Int) ≥ needed
        · rw [if_pos hstop]
          refine ⟨hWFr, hmax, hexg, ?_, .inl hstop⟩
          rw [hstor, hsumc]
          ring
        · rw [if_neg hstop]
          have hcov' : ∀ k ∈ AL.keys
              ({ removeKey st a with
                 eviction_count := st.eviction_count + 1 } : MemBackend).storage,
              k ≠ exclude → k ∈ as := by
            intro k hk hne
            rw [hstor, AL.keys_erase] at hk
            have hkne : k ≠ a := by
              intro h
              subst h
              exact (List.Nodup.not_mem_erase hWF.1) hk
            rcases List.mem_cons.mp
              (hcov k (List.mem_of_mem_erase hk) hne) with h | h
            · exact absurd h hkne
            · exact h
          obtain ⟨w1, w2, w3, w4, w5⟩ := ih _ _ hWFr hcov'
          refine ⟨w1, w2.trans hmax, w3.trans hexg, ?_, w5⟩
          rw [w4, hstor, hsumc]
          ring

/-- The byte count `_ensure_space_unsafe` subtracts for the excluded key. -/
def exclSize (l : List (String × Blob)) (exclude : String) : Int :=
  if exclude ≠ "" then
    match AL.get? l exclude with
    | some v => (blobSize v : Int)
    | none => 0
  else 0

theorem exclSize_le_oldSizeOf (l : List (String × Blob)) (exclude : String) :
    exclSize l exclude ≤ (oldSizeOf l exclude : Int) := by
  unfold exclSize oldSizeOf
  split
  · cases AL.get? l exclude <;> simp
  · cases AL.get? l exclude <;> simp

theorem sumSizes_of_all_exclude {l : List (String × Blob)} {exclude : String}
    (hnd : (AL.keys l).Nodup) (hall : ∀ k ∈ AL.keys l, k = exclude) :
    sumSizes l = oldSizeOf l exclude := by
  cases l with
  | nil => simp [sumSizes, oldSizeOf, AL.get?]
  | cons p ps =>
    obtain ⟨k0, v0⟩ := p
    have hk0 : k0 = exclude := hall k0 (by simp [AL.keys])
    subst hk0
    cases ps with
    | nil => simp [sumSizes, oldSizeOf, AL.get?]
    | cons q qs =>
      obtain ⟨k1, v1⟩ := q
      have hk1 : k1 = k0 := hall k1 (by simp [AL.keys])
      subst hk1
      simp [AL.keys] at hnd

theorem pySorted_keys_cover {l : List (String × Nat)} {k : String}
    (h : k ∈ AL.keys l) :
    k ∈ (pySorted (fun a b => a.2 ≤ b.2) l).map Prod.fst := by
  simp only [AL.keys, List.mem_map] at h ⊢
  obtain ⟨p, hp, hpk⟩ := h
  exact ⟨p, (pySorted_mem _ l p).mpr hp, hpk⟩

theorem ensureSpace_spec (st : MemBackend) (now : Nat) (required : Nat)
    (exclude : String) (hWF : BackendWF st) :
    BackendWF (ensureSpace st now required exclude) ∧
    (ensureSpace st now required exclude).max_size_bytes =
      st.max_size_bytes ∧
    (required ≤ st.max_size_bytes →
      (sumSizes (ensureSpace st now required exclude).storage : Int) -
        (oldSizeOf (ensureSpace st now required exclude).storage exclude : Int)
        + required ≤ (st.max_size_bytes : Int)) := by
  have hWFc := cleanupExpired_WF st now hWF
  have hmaxc := cleanupExpired_max st now
  have hb : ensureSpace st now required exclude =
      (if (cleanupExpired st now).total_size_bytes -
          exclSize (cleanupExpired st now).storage exclude + (required : Int) ≤
          ((cleanupExpired st now).max_size_bytes : Int) then
        cleanupExpired st now
      else
        (evictGo exclude
          ((cleanupExpired st now).total_size_bytes -
            exclSize (cleanupExpired st now).storage exclude + (required : Int)
            - ((cleanupExpired st now).max_size_bytes : Int))
          ((pySorted (fun a b => a.2 ≤ b.2)
            (cleanupExpired st now).access_times).map Prod.fst)
          (cleanupExpired st now) 0).1) := rfl
  rw [hb]
  set stc := cleanupExpired st now with hstc
  set ks := (pySorted (fun a b => a.2 ≤ b.2) stc.access_times).map Prod.fst
    with hks
  set needed := stc.total_size_bytes - exclSize stc.storage exclude +
    (required : Int) - (stc.max_size_bytes : Int) with hneed
  have htot := hWFc.2.2.2
  have hex := exclSize_le_oldSizeOf stc.storage exclude
  split
  · next hfits =>
    refine ⟨hWFc, hmaxc, fun hreq => ?_⟩
    omega
  · next hover =>
    have hcov : ∀ k ∈ AL.keys stc.storage, k ≠ exclude → k ∈ ks := by
      intro k hk _
      rw [hks]
      apply pySorted_keys_cover
      rw [hWFc.2.2.1]
      exact hk
    obtain ⟨w1, w2, w3, w4, w5⟩ := evictGo_spec exclude needed ks stc 0
      hWFc hcov
    refine ⟨w1, w2.trans hmaxc, fun hreq => ?_⟩
    have hold : oldSizeOf (evictGo exclude needed ks stc 0).1.storage exclude =
        oldSizeOf stc.storage exclude := by
      unfold oldSizeOf
      rw [w3]
    rcases w5 with hE | hall
    · omega
    · have hsum1 := sumSizes_of_all_exclude w1.1 hall
      omega

/-! ## Claim C2 -/

/-- 1 MB backend: entry `A` written at t=0, `B` at t=1, `A` read at t=2 (so
`B` is least recently accessed), then `C` written at t=3 while `A`+`B`+`C`
exceed the budget. -/
def c2b1 : MemBackend :=
  backendSet (memBackendNew 1 none) 0 "A" (Blob.junk 500000) none

def c2b2 : MemBackend := backendSet c2b1 1 "B" (Blob.junk 500000) none

def c2b3 : MemBackend := (backendGet c2b2 2 "A").2

def c2b4 : MemBackend := backendSet c2b3 3 "C" (Blob.junk 500000) none

/-- C2 (amended): after a completed `set` whose value fits the configured
maximum (`len(value) <= max_size_bytes`), the total bytes held — the sum of
stored value sizes, which the `_total_size_bytes` counter tracks exactly —
is at most the configured maximum; the backend purges TTL-expired entries
and then evicts least-recently-accessed entries before inserting, as in the
spec's scenario where writing `C` evicts exactly the least-recently-accessed
`B`.  (An oversized value is stored regardless and exceeds the budget; see
the counterexample.) -/
theorem C2_capacity_bound (st : MemBackend) (now : Nat) (k : String)
    (v : Blob) (ttl : Option Nat) (hWF : BackendWF st)
    (hfit : blobSize v ≤ st.max_size_bytes) :
    sumSizes (backendSet st now k v ttl).storage ≤
      (backendSet st now k v ttl).max_size_bytes ∧
    (backendSet st now k v ttl).max_size_bytes = st.max_size_bytes ∧
    BackendWF (backendSet st now k v ttl) ∧
    AL.hasKey c2b4.storage "A" = true ∧
    AL.hasKey c2b4.storage "B" = false ∧
    AL.hasKey c2b4.storage "C" = true ∧
    c2b4.eviction_count = 1 ∧
    sumSizes c2b4.storage ≤ c2b4.max_size_bytes := by
  obtain ⟨e1, e2, e3⟩ := ensureSpace_spec st now (blobSize v) k hWF
  have hbound := e3 hfit
  have hstor : (backendSet st now k v ttl).storage =
      AL.set (ensureSpace st now (blobSize v) k).storage k v := rfl
  have hmax : (backendSet st now k v ttl).max_size_bytes =
      (ensureSpace st now (blobSize v) k).max_size_bytes := rfl
  have htotal : (backendSet st now k v ttl).total_size_bytes =
      (ensureSpace st now (blobSize v) k).total_size_bytes +
        (blobSize v : Int) -
        (oldSizeOf (ensureSpace st now (blobSize v) k).storage k : Int) := rfl
  have haccess : (backendSet st now k v ttl).access_times =
      AL.set (ensureSpace st now (blobSize v) k).access_times k now := rfl
  have hmeta : ∃ em, (backendSet st now k v ttl).meta =
      AL.set (ensureSpace st now (blobSize v) k).meta k em := ⟨_, rfl⟩
  have hsum := sumSizes_set (ensureSpace st now (blobSize v) k).storage k v
  obtain ⟨w1, w2, w3, w4⟩ := e1
  refine ⟨?_, hmax.trans e2, ⟨?_, ?_, ?_, ?_⟩, by decide, by decide,
    by decide, by decide, by decide⟩
  · rw [hstor, hmax, e2]
    omega
  · rw [hstor]
    exact AL.keys_nodup_set v w1
  · obtain ⟨em, hm⟩ := hmeta
    rw [hm, hstor, AL.keys_set, AL.keys_set, w2]
  · rw [haccess, hstor, AL.keys_set, AL.keys_set, w3]
  · rw [htotal, hstor, w4]
    have : (sumSizes (AL.set (ensureSpace st now (blobSize v) k).storage k v)
        : Int) + (oldSizeOf (ensureSpace st now (blobSize v) k).storage k
        : Int) = (sumSizes (ensureSpace st now (blobSize v) k).storage : Int)
        + (blobSize v : Int) := by
      exact_mod_cast congrArg Nat.cast hsum
    omega

/-- C2 (counterexample): a single value larger than the configured maximum
(1 MB here) is stored anyway — the eviction loop runs out of candidates —
and the bytes held then exceed the configured maximum. -/
theorem C2_counterexample :
    (memBackendNew 1 none).max_size_bytes = 1048576 ∧
    sumSizes (backendSet (memBackendNew 1 none) 0 "k"
      (Blob.junk 1048577) none).storage >
      (backendSet (memBackendNew 1 none) 0 "k"
        (Blob.junk 1048577) none).max_size_bytes ∧
    (backendSet (memBackendNew 1 none) 0 "k" (Blob.junk 1048577)
      none).total_size_bytes = 1048577 :=
  ⟨rfl, by decide, by decide⟩

instance (st : MemBackend) : Decidable (BackendWF st) := by
  unfold BackendWF
  infer_instance

/-- A 1 MB backend holding one 100-byte entry. -/
def c2wit : MemBackend :=
  backendSet (memBackendNew 1 none) 0 "w1" (Blob.junk 100) none

theorem C2_capacity_bound_witness :
    sumSizes (backendSet c2wit 5 "w2" (Blob.junk 200) none).storage ≤
      (backendSet c2wit 5 "w2" (Blob.junk 200) none).max_size_bytes ∧
    BackendWF (backendSet c2wit 5 "w2" (Blob.junk 200) none) := by
  have T := C2_capacity_bound c2wit 5 "w2" (Blob.junk 200) none (by decide)
    (by decide)
  exact ⟨T.1, T.2.2.1⟩

/-! ## Thread-key parsing and agent counting (toward the per-thread limit) -/

/-- The key prefix of one thread's agent-state keys. -/
def threadPrefix (tid : String) : String := "copilotkit:state:" ++ tid ++ ":"

/-- The agent-name extraction `list_thread_agents` applies to one key. -/
def parseAgent (tid : String) (k : String) : Option String :=
  if strStarts k (threadPrefix tid) then
    let an := strDrop k (threadPrefix tid).data.length
    if validateAgentName an then some an else none
  else none

/-- The agents of thread `tid` present in a storage table, in key order. -/
def parsedAgents (l : List (String × Blob)) (tid : String) : List String :=
  (AL.keys l).filterMap (parseAgent tid)

/-- The count of thread `tid`'s agents other than `an`. -/
def countF (l : List (String × Blob)) (tid an : String) : Nat :=
  ((parsedAgents l tid).filter (fun a => a ≠ an)).length

theorem generateStateKey_eq (tid an : String) :
    generateStateKey tid an = threadPrefix tid ++ an := by
  unfold generateStateKey threadPrefix
  rw [String.append_assoc, String.append_assoc]

theorem strStarts_append (pre s : String) : strStarts (pre ++ s) pre = true := by
  unfold strStarts
  rw [String.data_append, List.isPrefixOf_iff_prefix]
  exact List.prefix_append pre.data s.data

theorem strDrop_append (pre s : String) :
    strDrop (pre ++ s) pre.data.length = s := by
  unfold strDrop
  rw [String.data_append, List.drop_left]

theorem parseAgent_genKey (tid an : String)
    (hn : validateAgentName an = true) :
    parseAgent tid (generateStateKey tid an) = some an := by
  rw [generateStateKey_eq]
  unfold parseAgent
  rw [strStarts_append, strDrop_append]
  simp [hn]

theorem parseAgent_some {tid k an : String}
    (h : parseAgent tid k = some an) :
    k = generateStateKey tid an ∧ validateAgentName an = true := by
  unfold parseAgent at h
  by_cases hs : strStarts k (threadPrefix tid) = true
  · rw [if_pos hs] at h
    by_cases hv : validateAgentName (strDrop k (threadPrefix tid).data.length)
      = true
    · rw [if_pos hv] at h
      have han : strDrop k (threadPrefix tid).data.length = an := by
        simpa using h
      subst han
      refine ⟨?_, hv⟩
      unfold strStarts at hs
      rw [List.isPrefixOf_iff_prefix] at hs
      obtain ⟨rest, hrest⟩ := hs
      rw [generateStateKey_eq]
      have h2 : (strDrop k (threadPrefix tid).data.length).data = rest := by
        rw [show (strDrop k (threadPrefix tid).data.length).data =
          k.data.drop (threadPrefix tid).data.length from rfl, ← hrest,
          List.drop_left]
      have h3 : k.data =
          (threadPrefix tid ++ strDrop k (threadPrefix tid).data.length).data := by
        rw [String.data_append, h2, hrest]
      exact congrArg String.mk h3
    · rw [if_neg hv] at h
      exact absurd h (by simp)
  · rw [if_neg hs] at h
    exact absurd h (by simp)

theorem generateStateKey_inj {tid a b : String}
    (h : generateStateKey tid a = generateStateKey tid b) : a = b := by
  rw [generateStateKey_eq, generateStateKey_eq] at h
  have hd := congrArg String.data h
  rw [String.data_append, String.data_append] at hd
  have := List.append_cancel_left hd
  exact congrArg String.mk this

theorem threadPrefix_ne_empty (tid : String) : threadPrefix tid ≠ "" := by
  intro h
  have hd := congrArg String.data h
  rw [show (threadPrefix tid).data =
    "copilotkit:state:".data ++ tid.data ++ ":".data by
      unfold threadPrefix
      rw [String.data_append, String.data_append]] at hd
  simp at hd

theorem parsedAgents_nodup {l : List (String × Blob)} {tid : String}
    (h : (AL.keys l).Nodup) : (parsedAgents l tid).Nodup := by
  apply List.Nodup.filterMap _ h
  intro k1 k2 a h1 h2
  rw [Option.mem_def] at h1 h2
  rw [(parseAgent_some h1).1, (parseAgent_some h2).1]

theorem countF_sublist_le {l l' : List (String × Blob)} {tid an : String}
    (h : l.Sublist l') : countF l tid an ≤ countF l' tid an := by
  unfold countF parsedAgents AL.keys
  exact (((h.map Prod.fst).filterMap (parseAgent tid)).filter _).length_le

theorem storage_removeKey_sublist (st : MemBackend) (k : String) :
    (removeKey st k).storage.Sublist st.storage := by
  rw [storage_removeKey]
  cases AL.get? st.storage k with
  | none => exact List.Sublist.refl _
  | some v => exact AL.erase_sublist st.storage k

theorem storage_fold_removeKey_sublist (ks : List String) (st : MemBackend) :
    ((ks.foldl removeKey st).storage).Sublist st.storage := by
  induction ks generalizing st with
  | nil => exact List.Sublist.refl _
  | cons a as ih =>
    exact (ih (removeKey st a)).trans (storage_removeKey_sublist st a)

theorem storage_evictGo_sublist (exclude : String) (needed : Int)
    (ks : List String) : ∀ (st : MemBackend) (ev : Int),
    ((evictGo exclude needed ks st ev).1.storage).Sublist st.storage := by
  induction ks with
  | nil => intro st ev; rw [evictGo_nil]
  | cons a as ih =>
    intro st ev
    rw [evictGo_cons]
    by_cases ha : a = exclude
    · rw [if_pos ha]; exact ih st ev
    · rw [if_neg ha]
      cases AL.get? st.storage a with
      | none => exact ih st ev
      | some v =>
        dsimp only
        split
        · exact storage_removeKey_sublist st a
        · exact (ih _ _).trans (storage_removeKey_sublist st a)

theorem cleanupExpired_storage_sublist (st : MemBackend) (now : Nat) :
    ((cleanupExpired st now).storage).Sublist st.storage :=
  storage_fold_removeKey_sublist _ st

theorem storage_ensureSpace_sublist (st : MemBackend) (now : Nat)
    (required : Nat) (exclude : String) :
    ((ensureSpace st now required exclude).storage).Sublist st.storage := by
  have hb : ensureSpace st now required exclude =
      (if (cleanupExpired st now).total_size_bytes -
          exclSize (cleanupExpired st now).storage exclude + (required : Int) ≤
          ((cleanupExpired st now).max_size_bytes : Int) then
        cleanupExpired st now
      else
        (evictGo exclude
          ((cleanupExpired st now).total_size_bytes -
            exclSize (cleanupExpired st now).storage exclude + (required : Int)
            - ((cleanupExpired st now).max_size_bytes : Int))
          ((pySorted (fun a b => a.2 ≤ b.2)
            (cleanupExpired st now).access_times).map Prod.fst)
          (cleanupExpired st now) 0).1) := rfl
  rw [hb]
  split
  · exact cleanupExpired_storage_sublist st now
  · exact (storage_evictGo_sublist _ _ _ _ _).trans
      (cleanupExpired_storage_sublist st now)

theorem countF_set_key (l : List (String × Blob)) (tid an : String)
    (v : Blob) (hn : validateAgentName an = true) :
    countF (AL.set l (generateStateKey tid an) v) tid an = countF l tid an := by
  unfold countF parsedAgents
  rw [AL.keys_set]
  split
  · rfl
  · rw [List.filterMap_append]
    simp [parseAgent_genKey tid an hn]

theorem nodup_filter_eq_le_one {l : List String} (a : String)
    (h : l.Nodup) : (l.filter (fun x => x = a)).length ≤ 1 := by
  have hnd := h.filter (fun x => x = a)
  rcases hf : l.filter (fun x => x = a) with _ | ⟨x, _ | ⟨y, ys⟩⟩
  · simp
  · simp
  · exfalso
    have hx : x = a := by
      have := List.mem_filter.mp (hf ▸ List.mem_cons_self x (y :: ys))
      simpa using this.2
    have hy : y = a := by
      have := List.mem_filter.mp (hf ▸ List.mem_cons.mpr
        (.inr (List.mem_cons_self y ys)))
      simpa using this.2
    rw [hf] at hnd
    simp [hx, hy] at hnd

theorem length_filter_split (l : List String) (an : String) :
    l.length = (l.filter (fun a => a ≠ an)).length +
      (l.filter (fun a => a = an)).length := by
  induction l with
  | nil => simp
  | cons x xs ih =>
    simp only [List.filter_cons, List.length_cons]
    by_cases hx : x = an
    · rw [if_neg (by simp [hx]), if_pos (by simp [hx])]
      simp only [List.length_cons]
      omega
    · rw [if_pos (by simp [hx]), if_neg (by simp [hx])]
      simp only [List.length_cons]
      omega

theorem countA_le_countF_succ {l : List (String × Blob)} {tid : String}
    (an : String) (h : (AL.keys l).Nodup) :
    (parsedAgents l tid).length ≤ countF l tid an + 1 := by
  have hsplit := length_filter_split (parsedAgents l tid) an
  have hone := nodup_filter_eq_le_one an
    (@parsedAgents_nodup l tid h)
  unfold countF
  omega

theorem map_fst_filter (l : List (String × Blob)) (Q : String → Bool) :
    (l.filter (fun p => Q p.1)).map Prod.fst = (l.map Prod.fst).filter Q := by
  induction l with
  | nil => rfl
  | cons p ps ih =>
    by_cases h : Q p.1
    · simp [List.filter_cons, h, ih]
    · simp [List.filter_cons, h, ih]

theorem filterMap_filter_none {f : String → Option String}
    {Q : String → Bool} (h : ∀ k, Q k = false → f k = none)
    (l : List String) : (l.filter Q).filterMap f = l.filterMap f := by
  induction l with
  | nil => rfl
  | cons x xs ih =>
    by_cases hx : Q x
    · simp [List.filter_cons, hx, List.filterMap_cons, ih]
    · rw [List.filter_cons, if_neg (by simp [hx]), List.filterMap_cons,
        h x (by simpa using hx), ih]

theorem parseAgent_none_of_not_starts {tid k : String}
    (hk : strStarts k (threadPrefix tid) = false) :
    parseAgent tid k = none := by
  unfold parseAgent
  rw [if_neg (by simp [hk])]

theorem listThreadAgents_eq (st : MemStore) (now : Nat) (tid : String)
    (ht : validateThreadId tid = true) :
    listThreadAgents st now tid =
      (.ok (pySorted pyStrLe
        (parsedAgents (cleanupExpired st.backend now).storage tid)),
       { st with backend := cleanupExpired st.backend now }) := by
  unfold listThreadAgents backendListKeys
  simp only [ht, not_true_eq_false, Bool.false_eq_true, if_false]
  rw [if_pos (show ("copilotkit:state:" ++ tid ++ ":" : String) ≠ "" from
    threadPrefix_ne_empty tid)]
  have key : (((cleanupExpired st.backend now).storage.filter
        (fun p => strStarts p.1 ("copilotkit:state:" ++ tid ++ ":"))).map
        Prod.fst).filterMap (parseAgent tid) =
      parsedAgents (cleanupExpired st.backend now).storage tid := by
    rw [map_fst_filter (cleanupExpired st.backend now).storage
      (fun k => strStarts k ("copilotkit:state:" ++ tid ++ ":"))]
    exact filterMap_filter_none
      (fun k hk => parseAgent_none_of_not_starts hk) _
  exact congrArg (fun x =>
    ((Except.ok (pySorted pyStrLe x) : Except SErr (List String)),
      { st with backend := cleanupExpired st.backend now })) key

/-! ## Store well-formedness -/

/-- Is this byte string a canonical envelope encoding? -/
def isEnc : Blob → Bool
  | .enc _ => true
  | .junk _ => false

/-- Every stored blob is a well-formed envelope (true of all states the
store itself produces: it only ever writes `serialize_state` output). -/
def BlobsEnc (l : List (String × Blob)) : Prop :=
  ∀ p ∈ l, isEnc p.2 = true

instance (l : List (String × Blob)) : Decidable (BlobsEnc l) := by
  unfold BlobsEnc
  infer_instance

/-- The states reachable by `MemoryStateStore`. -/
def StoreWF (st : MemStore) : Prop :=
  BackendWF st.backend ∧ BlobsEnc st.backend.storage

instance (st : MemStore) : Decidable (StoreWF st) := by
  unfold StoreWF
  infer_instance

theorem BlobsEnc_sublist {l l' : List (String × Blob)} (h : l.Sublist l')
    (he : BlobsEnc l') : BlobsEnc l :=
  fun p hp => he p (h.mem hp)

/-! ## Metadata-table expiry lemmas -/

theorem meta_removeKey (st : MemBackend) (k : String) :
    (removeKey st k).meta = AL.erase st.meta k := by
  unfold removeKey
  cases AL.get? st.storage k <;> rfl

theorem access_removeKey (st : MemBackend) (k : String) :
    (removeKey st k).access_times = AL.erase st.access_times k := by
  unfold removeKey
  cases AL.get? st.storage k <;> rfl

theorem meta_nodup_removeKey {st : MemBackend} (k : String)
    (hnd : (AL.keys st.meta).Nodup) :
    (AL.keys (removeKey st k).meta).Nodup := by
  rw [meta_removeKey, AL.keys_erase]
  exact hnd.erase k

theorem fold_removeKey_meta_none (ks : List String) (st : MemBackend)
    (k : String) (h : AL.get? st.meta k = none) :
    AL.get? ((ks.foldl removeKey st).meta) k = none := by
  induction ks generalizing st with
  | nil => exact h
  | cons a as ih =>
    refine ih (removeKey st a) ?_
    rw [meta_removeKey]
    exact AL.get?_erase_of_none h a

theorem fold_removeKey_meta_mem (ks : List String) (st : MemBackend)
    (k : String) (hnd : (AL.keys st.meta).Nodup) (hk : k ∈ ks) :
    AL.get? ((ks.foldl removeKey st).meta) k = none := by
  induction ks generalizing st with
  | nil => cases hk
  | cons a as ih =>
    rcases List.mem_cons.mp hk with h | h
    · subst h
      refine fold_removeKey_meta_none as (removeKey st k) k ?_
      rw [meta_removeKey]
      exact AL.get?_erase_self hnd
    · exact ih (removeKey st a) (meta_nodup_removeKey a hnd) h

theorem fold_removeKey_meta_opt (ks : List String) (st : MemBackend)
    (k : String) (hnd : (AL.keys st.meta).Nodup) :
    AL.get? ((ks.foldl removeKey st).meta) k = AL.get? st.meta k ∨
    AL.get? ((ks.foldl removeKey st).meta) k = none := by
  induction ks generalizing st with
  | nil => exact .inl rfl
  | cons a as ih =>
    rw [List.foldl_cons]
    rcases ih (removeKey st a) (meta_nodup_removeKey a hnd) with h | h
    · rw [h, meta_removeKey]
      by_cases hak : k = a
      · subst hak
        exact .inr (AL.get?_erase_self hnd)
      · exact .inl (AL.get?_erase_ne hak)
    · exact .inr h

/-- After the lazy purge at instant `now`, no entry left in the metadata
table is expired at `now`. -/
theorem cleaned_not_expired (st : MemBackend) (now : Nat) (k : String)
    (hWF : BackendWF st) :
    entryExpired now (AL.get? (cleanupExpired st now).meta k) = false := by
  have hndm : (AL.keys st.meta).Nodup := by
    rw [hWF.2.1]; exact hWF.1
  by_cases h : entryExpired now (AL.get? st.meta k) = true
  · obtain ⟨em, hm⟩ : ∃ em, AL.get? st.meta k = some em := by
      cases hmm : AL.get? st.meta k with
      | none => rw [hmm] at h; simp [entryExpired] at h
      | some em => exact ⟨em, rfl⟩
    have hkmem : k ∈ (st.meta.filter
        (fun p => entryExpired now (some p.2))).map Prod.fst := by
      refine List.mem_map.mpr ⟨(k, em), List.mem_filter.mpr
        ⟨AL.get?_mem hm, ?_⟩, rfl⟩
      rw [hm] at h
      exact h
    unfold cleanupExpired
    rw [fold_removeKey_meta_mem _ st k hndm hkmem]
    rfl
  · unfold cleanupExpired
    rcases fold_removeKey_meta_opt _ st k hndm with h2 | h2
    · rw [h2]
      exact Bool.not_eq_true _ ▸ (by simpa using h)
    · rw [h2]
      rfl

theorem get?_some_mem_keys {l : List (String × β)} {k : String} {v : β}
    (h : AL.get? l k = some v) : k ∈ AL.keys l := by
  by_contra hk
  rw [← AL.get?_eq_none_iff] at hk
  rw [h] at hk
  cases hk

theorem backendGet_not_expired (st : MemBackend) (now : Nat) (k : String)
    (v : Blob) (hv : AL.get? st.storage k = some v)
    (hne : entryExpired now (AL.get? st.meta k) = false) :
    backendGet st now k = (some v,
      { st with access_times := AL.set st.access_times k now
                access_count := st.access_count + 1 }) := by
  unfold backendGet
  simp only [hv, hne, Bool.false_eq_true, if_false]

theorem loadAgentState_present (s : MemStore) (now : Nat) (tid a : String)
    (c : Container) (ht : validateThreadId tid = true)
    (ha : validateAgentName a = true)
    (hv : AL.get? s.backend.storage (generateStateKey tid a) =
      some (.enc c))
    (hne : entryExpired now
      (AL.get? s.backend.meta (generateStateKey tid a)) = false) :
    loadAgentState s now tid a =
      (.ok (some ⟨generateStateKey tid a, c.data, c.meta⟩),
       { s with backend := { s.backend with
           access_times :=
             AL.set s.backend.access_times (generateStateKey tid a) now
           access_count := s.backend.access_count + 1 } }) := by
  unfold loadAgentState
  simp only [ht, ha, not_true_eq_false, Bool.false_eq_true, if_false]
  rw [backendGet_not_expired s.backend now _ _ hv hne]
  rfl

theorem getStateMetadata_present (s : MemStore) (now : Nat) (tid a : String)
    (c : Container) (ht : validateThreadId tid = true)
    (ha : validateAgentName a = true)
    (hv : AL.get? s.backend.storage (generateStateKey tid a) =
      some (.enc c))
    (hne : entryExpired now
      (AL.get? s.backend.meta (generateStateKey tid a)) = false) :
    getStateMetadata s now tid a =
      (.ok (some c.meta),
       { s with backend := { s.backend with
           access_times :=
             AL.set s.backend.access_times (generateStateKey tid a) now
           access_count := s.backend.access_count + 1 } }) := by
  unfold getStateMetadata
  simp only [ht, ha, not_true_eq_false, Bool.false_eq_true, if_false]
  rw [loadAgentState_present s now tid a c ht ha hv hne]
  rfl

theorem BackendWF_touch (st : MemBackend) (k : String) (now : Nat)
    (hk : k ∈ AL.keys st.storage) (h : BackendWF st) :
    BackendWF { st with access_times := AL.set st.access_times k now
                        access_count := st.access_count + 1 } := by
  obtain ⟨hnd, hm, ha, ht⟩ := h
  refine ⟨hnd, hm, ?_, ht⟩
  rw [AL.keys_set, ha, if_pos hk]

theorem collectMeta_spec (now : Nat) (tid : String)
    (ht : validateThreadId tid = true) :
    ∀ (ags : List String) (s : MemStore),
    (∀ a ∈ ags, validateAgentName a = true) →
    (∀ a ∈ ags, ∃ c, AL.get? s.backend.storage (generateStateKey tid a) =
      some (.enc c)) →
    (∀ k, entryExpired now (AL.get? s.backend.meta k) = false) →
    BackendWF s.backend →
    ∃ pairs s',
      collectMeta now tid ags s = (.ok pairs, s') ∧
      pairs.map Prod.fst = ags ∧
      s'.backend.storage = s.backend.storage ∧
      s'.backend.meta = s.backend.meta ∧
      s'.max_states_per_thread = s.max_states_per_thread ∧
      BackendWF s'.backend := by
  intro ags
  induction ags with
  | nil =>
    intro s _ _ _ hWF
    exact ⟨[], s, rfl, rfl, rfl, rfl, rfl, hWF⟩
  | cons a rest ih =>
    intro s hval hpres hnex hWF
    obtain ⟨c, hc⟩ := hpres a (List.mem_cons_self a rest)
    have hgsm := getStateMetadata_present s now tid a c ht
      (hval a (List.mem_cons_self a rest)) hc (hnex _)
    have hkmem : generateStateKey tid a ∈ AL.keys s.backend.storage :=
      get?_some_mem_keys hc
    obtain ⟨pairs, s', he, hmap, hstor, hmeta, hmx, hWF'⟩ :=
      ih { s with backend := { s.backend with
            access_times :=
              AL.set s.backend.access_times (generateStateKey tid a) now
            access_count := s.backend.access_count + 1 } }
        (fun b hb => hval b (List.mem_cons_of_mem a hb))
        (fun b hb => hpres b (List.mem_cons_of_mem a hb))
        hnex (BackendWF_touch s.backend _ now hkmem hWF)
    refine ⟨(a, c.meta.updated_at) :: pairs, s', ?_, ?_, hstor, hmeta, hmx,
      hWF'⟩
    · simp only [collectMeta]
      rw [hgsm]
      dsimp only
      rw [he]
    · simp [hmap]

theorem parsedAgents_cons (k : String) (v : Blob) (l : List (String × Blob))
    (tid : String) :
    parsedAgents ((k, v) :: l) tid =
      match parseAgent tid k with
      | some b => b :: parsedAgents l tid
      | none => parsedAgents l tid := by
  unfold parsedAgents AL.keys
  rw [List.map_cons, List.filterMap_cons]
  dsimp only
  cases parseAgent tid k <;> rfl

theorem countF_cons (k : String) (v : Blob) (l : List (String × Blob))
    (tid an : String) :
    countF ((k, v) :: l) tid an =
      countF l tid an +
        (match parseAgent tid k with
         | some b => if b ≠ an then 1 else 0
         | none => 0) := by
  unfold countF
  rw [parsedAgents_cons]
  cases parseAgent tid k with
  | none => rfl
  | some b =>
    dsimp only
    by_cases hb : b ≠ an
    · rw [if_pos hb]
      simp [List.filter_cons, hb]
    · rw [if_neg hb]
      simp only [ne_eq, not_not] at hb
      simp [List.filter_cons, hb]

theorem countF_erase_parse {l : List (String × Blob)} {tid an a key : String}
    (hnd : (AL.keys l).Nodup) (hmem : key ∈ AL.keys l)
    (hp : parseAgent tid key = some a) (hne : a ≠ an) :
    countF (AL.erase l key) tid an + 1 = countF l tid an := by
  induction l with
  | nil => cases hmem
  | cons p ps ih =>
    obtain ⟨k0, v0⟩ := p
    simp only [AL.keys, List.map_cons, List.nodup_cons] at hnd
    by_cases hk : k0 = key
    · subst hk
      rw [show AL.erase ((k0, v0) :: ps) k0 = ps by simp [AL.erase]]
      rw [countF_cons, hp]
      dsimp only
      rw [if_pos hne]
    · have hmem' : key ∈ AL.keys ps := by
        rcases List.mem_cons.mp hmem with h | h
        · exact absurd h.symm hk
        · exact h
      rw [show AL.erase ((k0, v0) :: ps) key = (k0, v0) :: AL.erase ps key by
        simp [AL.erase, hk]]
      rw [countF_cons, countF_cons]
      have := ih hnd.2 hmem'
      omega

theorem deleteAgentState_present (s : MemStore) (tid a : String)
    (ht : validateThreadId tid = true) (ha : validateAgentName a = true)
    (hk : AL.hasKey s.backend.storage (generateStateKey tid a) = true) :
    deleteAgentState s tid a =
      (.ok true,
       { s with backend := removeKey s.backend (generateStateKey tid a) }) := by
  unfold deleteAgentState backendDelete
  simp only [ht, ha, not_true_eq_false, Bool.false_eq_true, if_false, hk,
    if_true]

theorem deleteOldest_spec (tid an : String)
    (ht : validateThreadId tid = true) :
    ∀ (pairs : List (String × Nat)) (s : MemStore),
    (∀ p ∈ pairs, validateAgentName p.1 = true) →
    (∀ p ∈ pairs, AL.hasKey s.backend.storage
      (generateStateKey tid p.1) = true) →
    (∀ p ∈ pairs, p.1 ≠ an) →
    (pairs.map Prod.fst).Nodup →
    StoreWF s →
    ∃ s', deleteOldest tid pairs s = (.ok (), s') ∧
      countF s'.backend.storage tid an + pairs.length =
        countF s.backend.storage tid an ∧
      StoreWF s' ∧
      s'.max_states_per_thread = s.max_states_per_thread := by
  intro pairs
  induction pairs with
  | nil =>
    intro s _ _ _ _ hWF
    exact ⟨s, rfl, by simp, hWF, rfl⟩
  | cons p rest ih =>
    intro s hval hpres hnan hnd hWF
    obtain ⟨a, t⟩ := p
    have hkmem := hpres (a, t) (List.mem_cons_self _ rest)
    obtain ⟨v, hv⟩ : ∃ v, AL.get? s.backend.storage
        (generateStateKey tid a) = some v := by
      unfold AL.hasKey at hkmem
      cases hg : AL.get? s.backend.storage (generateStateKey tid a) with
      | none => rw [hg] at hkmem; cases hkmem
      | some v => exact ⟨v, rfl⟩
    have hdel := deleteAgentState_present s tid a ht
      (hval (a, t) (List.mem_cons_self _ rest)) hkmem
    have hstor1 : (removeKey s.backend (generateStateKey tid a)).storage =
        AL.erase s.backend.storage (generateStateKey tid a) := by
      rw [storage_removeKey, hv]
    have hWF1 : StoreWF
        { s with backend := removeKey s.backend (generateStateKey tid a) } :=
      ⟨BackendWF_removeKey _ hWF.1,
       BlobsEnc_sublist (storage_removeKey_sublist _ _) hWF.2⟩
    simp only [List.map_cons, List.nodup_cons] at hnd
    have hpres1 : ∀ q ∈ rest, AL.hasKey
        (removeKey s.backend (generateStateKey tid a)).storage
        (generateStateKey tid q.1) = true := by
      intro q hq
      have hneq : generateStateKey tid q.1 ≠ generateStateKey tid a := by
        intro h
        exact hnd.1 (by
          rw [← generateStateKey_inj h]
          exact List.mem_map.mpr ⟨q, hq, rfl⟩)
      unfold AL.hasKey
      rw [hstor1, AL.get?_erase_ne hneq]
      exact hpres q (List.mem_cons_of_mem _ hq)
    obtain ⟨s', he, hcount, hWF', hmx⟩ := ih
      { s with backend := removeKey s.backend (generateStateKey tid a) }
      (fun q hq => hval q (List.mem_cons_of_mem _ hq)) hpres1
      (fun q hq => hnan q (List.mem_cons_of_mem _ hq)) hnd.2 hWF1
    refine ⟨s', ?_, ?_, hWF', hmx⟩
    · simp only [deleteOldest]
      rw [hdel]
      dsimp only
      rw [he]
    · have hstep : countF (removeKey s.backend
          (generateStateKey tid a)).storage tid an + 1 =
          countF s.backend.storage tid an := by
        rw [hstor1]
        exact countF_erase_parse hWF.1.1 (get?_some_mem_keys hv)
          (parseAgent_genKey tid a (hval (a, t) (List.mem_cons_self _ rest)))
          (hnan (a, t) (List.mem_cons_self _ rest))
      simp only at hcount
      simp only [List.length_cons]
      omega

theorem mem_parsedAgents {l : List (String × Blob)} {tid a : String}
    (h : a ∈ parsedAgents l tid) :
    validateAgentName a = true ∧
    ∃ v, AL.get? l (generateStateKey tid a) = some v := by
  unfold parsedAgents at h
  obtain ⟨k, hk, hpk⟩ := List.mem_filterMap.mp h
  obtain ⟨hkey, hval⟩ := parseAgent_some hpk
  subst hkey
  refine ⟨hval, ?_⟩
  cases hg : AL.get? l (generateStateKey tid a) with
  | some v => exact ⟨v, rfl⟩
  | none =>
    rw [AL.get?_eq_none_iff] at hg
    exact absurd hk hg

theorem validateAgentName_ne_empty {an : String}
    (h : validateAgentName an = true) : an ≠ "" := by
  intro he
  subst he
  exact absurd h (by decide)

theorem blob_enc_of_mem {l : List (String × Blob)} {k : String} {v : Blob}
    (hBE : BlobsEnc l) (h : AL.get? l k = some v) : ∃ c, v = .enc c := by
  have hi := hBE (k, v) (AL.get?_mem h)
  cases v with
  | enc c => exact ⟨c, rfl⟩
  | junk n => simp [isEnc] at hi

theorem enforce_spec (s1 : MemStore) (now : Nat) (tid an : String)
    (ht : validateThreadId tid = true) (hn : validateAgentName an = true)
    (hWF : StoreWF s1) (hmax : 1 ≤ s1.max_states_per_thread) :
    ∃ s2, enforceThreadLimits s1 now tid an = (.ok (), s2) ∧
      countF s2.backend.storage tid an ≤ s1.max_states_per_thread - 1 ∧
      StoreWF s2 ∧
      s2.max_states_per_thread = s1.max_states_per_thread := by
  unfold enforceThreadLimits
  rw [listThreadAgents_eq s1 now tid ht]
  dsimp only
  rw [if_pos (validateAgentName_ne_empty hn)]
  set cb := cleanupExpired s1.backend now with hcb
  have hWFl : StoreWF { s1 with backend := cb } :=
    ⟨cleanupExpired_WF _ _ hWF.1,
     BlobsEnc_sublist (cleanupExpired_storage_sublist _ _) hWF.2⟩
  set la := pySorted pyStrLe (parsedAgents cb.storage tid) with hla
  set agents := la.filter (fun a => a ≠ an) with hagents
  have hlaperm : la.Perm (parsedAgents cb.storage tid) := by
    rw [hla]; exact pySorted_perm _ _
  have hlen : agents.length = countF cb.storage tid an := by
    rw [hagents]
    unfold countF
    exact (hlaperm.filter _).length_eq
  have hmemA : ∀ a ∈ agents, a ∈ parsedAgents cb.storage tid ∧ a ≠ an := by
    intro a ha
    rw [hagents] at ha
    have h2 := List.mem_filter.mp ha
    exact ⟨hlaperm.mem_iff.mp h2.1, by simpa using h2.2⟩
  split
  · next hge =>
    have hval : ∀ a ∈ agents, validateAgentName a = true := fun a ha =>
      (mem_parsedAgents (hmemA a ha).1).1
    have hpres : ∀ a ∈ agents, ∃ c,
        AL.get? ({ s1 with backend := cb } : MemStore).backend.storage
          (generateStateKey tid a) = some (.enc c) := by
      intro a ha
      obtain ⟨v, hv⟩ := (mem_parsedAgents (hmemA a ha).1).2
      obtain ⟨c, hc⟩ := blob_enc_of_mem hWFl.2 hv
      exact ⟨c, hc ▸ hv⟩
    have hnex : ∀ k, entryExpired now
        (AL.get? ({ s1 with backend := cb } : MemStore).backend.meta k)
        = false := by
      intro k
      rw [hcb]
      exact cleaned_not_expired s1.backend now k hWF.1
    obtain ⟨pairs, sc, hce, hmap, hstor, hmeta, hmx, hWFc⟩ :=
      collectMeta_spec now tid ht agents { s1 with backend := cb }
        hval hpres hnex hWFl.1
    rw [hce]
    dsimp only
    have hpairslen : pairs.length = agents.length := by
      rw [← hmap, List.length_map]
    have hagnodup : agents.Nodup := by
      rw [hagents]
      refine List.Nodup.filter _ ?_
      exact hlaperm.nodup_iff.mpr (parsedAgents_nodup hWFl.1.1)
    set toRemove := agents.length - s1.max_states_per_thread + 1 with htr
    set sortedPairs := pySorted (fun a b => a.2 ≤ b.2) pairs with hsp
    have hspperm : sortedPairs.Perm pairs := by
      rw [hsp]; exact pySorted_perm _ _
    set taken := sortedPairs.take toRemove with htk
    have htakenmem : ∀ p ∈ taken, p.1 ∈ agents := by
      intro p hp
      have h1 : p ∈ sortedPairs := List.take_subset _ _ hp
      have h2 : p ∈ pairs := hspperm.mem_iff.mp h1
      rw [← hmap]
      exact List.mem_map.mpr ⟨p, h2, rfl⟩
    have htknodup : (taken.map Prod.fst).Nodup := by
      have hspnd : (sortedPairs.map Prod.fst).Nodup := by
        refine ((hspperm.map Prod.fst).nodup_iff).mpr ?_
        rw [hmap]
        exact hagnodup
      rw [htk, List.map_take]
      exact (List.take_sublist _ _).nodup hspnd
    have hscWF : StoreWF sc := ⟨hWFc, by rw [hstor]; exact hWFl.2⟩
    obtain ⟨s2, hdo, hcount, hWF2, hmx2⟩ := deleteOldest_spec tid an ht
      taken sc
      (fun p hp => hval p.1 (htakenmem p hp))
      (fun p hp => by
        obtain ⟨c, hc⟩ := hpres p.1 (htakenmem p hp)
        unfold AL.hasKey
        rw [hstor]
        simp only at hc
        rw [hc]
        rfl)
      (fun p hp => (hmemA p.1 (htakenmem p hp)).2)
      htknodup hscWF
    refine ⟨s2, hdo, ?_, hWF2, by rw [hmx2, hmx]⟩
    have htklen : taken.length = toRemove := by
      rw [htk, List.length_take]
      have hsl : sortedPairs.length = agents.length := by
        rw [hspperm.length_eq, hpairslen]
      rw [hsl]
      omega
    have hsceq : countF sc.backend.storage tid an = countF cb.storage tid an := by
      rw [hstor]
    omega
  · next hlt =>
    refine ⟨{ s1 with backend := cb }, rfl, ?_, hWFl, rfl⟩
    have hb : ({ s1 with backend := cb } : MemStore).backend.storage =
        cb.storage := rfl
    rw [hb]
    omega

/-- The agents `list_thread_agents` reports (empty on error). -/
def threadAgents (st : MemStore) (now : Nat) (tid : String) : List String :=
  match (listThreadAgents st now tid).1 with
  | .ok l => l
  | .error _ => []

theorem threadAgents_length (st : MemStore) (now : Nat) (tid : String)
    (ht : validateThreadId tid = true) :
    (threadAgents st now tid).length =
      (parsedAgents (cleanupExpired st.backend now).storage tid).length := by
  unfold threadAgents
  rw [listThreadAgents_eq st now tid ht]
  exact pySorted_length _ _

theorem parsedAgents_sublist_le {l l' : List (String × Blob)} {tid : String}
    (h : l.Sublist l') :
    (parsedAgents l tid).length ≤ (parsedAgents l' tid).length :=
  ((h.map Prod.fst).filterMap (parseAgent tid)).length_le


theorem backendGet_spec (st : MemBackend) (now : Nat) (k : String)
    (hWF : BackendWF st) :
    BackendWF (backendGet st now k).2 ∧
    ((backendGet st now k).2.storage).Sublist st.storage ∧
    ((backendGet st now k).1 = none ∨
      ∃ v, (backendGet st now k).1 = some v ∧
        AL.get? st.storage k = some v) := by
  unfold backendGet
  cases hg : AL.get? st.storage k with
  | none => exact ⟨hWF, .refl _, .inl rfl⟩
  | some v =>
    dsimp only
    split
    · exact ⟨BackendWF_removeKey _ hWF, storage_removeKey_sublist _ _,
        .inl rfl⟩
    · exact ⟨BackendWF_touch st k now (get?_some_mem_keys hg) hWF, .refl _,
        .inr ⟨v, rfl, rfl⟩⟩

theorem load_spec (s : MemStore) (now : Nat) (tid an : String)
    (ht : validateThreadId tid = true) (hn : validateAgentName an = true)
    (hWF : StoreWF s) :
    (∃ r, (loadAgentState s now tid an).1 = .ok r) ∧
    StoreWF (loadAgentState s now tid an).2 ∧
    (loadAgentState s now tid an).2.max_states_per_thread =
      s.max_states_per_thread := by
  obtain ⟨g1, g2, g3⟩ := backendGet_spec s.backend now
    (generateStateKey tid an) hWF.1
  have hBE2 : BlobsEnc
      (backendGet s.backend now (generateStateKey tid an)).2.storage :=
    BlobsEnc_sublist g2 hWF.2
  unfold loadAgentState
  simp only [ht, hn, not_true_eq_false, Bool.false_eq_true, if_false]
  set b2 := (backendGet s.backend now (generateStateKey tid an)).2 with hb2
  rcases g3 with hnone | ⟨v, hv, hgv⟩
  · have hpair : backendGet s.backend now (generateStateKey tid an) =
        (none, b2) := by
      have h := (Prod.mk.eta
        (p := backendGet s.backend now (generateStateKey tid an))).symm
      rw [hnone, ← hb2] at h
      exact h
    simp only [hpair]
    refine ⟨⟨none, ?_⟩, ⟨g1, hBE2⟩, ?_⟩ <;> trivial
  · obtain ⟨c, hc⟩ := blob_enc_of_mem hWF.2 hgv
    subst hc
    have hpair : backendGet s.backend now (generateStateKey tid an) =
        (some (.enc c), b2) := by
      have h := (Prod.mk.eta
        (p := backendGet s.backend now (generateStateKey tid an))).symm
      rw [hv, ← hb2] at h
      exact h
    simp only [hpair]
    refine ⟨⟨some ⟨generateStateKey tid an, c.data, c.meta⟩, ?_⟩,
      ⟨g1, hBE2⟩, ?_⟩ <;> trivial

theorem save_merge_state (st : MemStore) (now : Nat) (tid an : String)
    (d : StateData) (tags : Option (List (String × String)))
    (r : Option SState)
    (ht : validateThreadId tid = true) (hn : validateAgentName an = true)
    (hload : (loadAgentState st now tid an).1 = .ok r)
    (henf : (enforceThreadLimits (loadAgentState st now tid an).2 now tid
      an).1 = .ok ()) :
    ∃ ss c, saveAgentState st now tid an d true tags =
      (.ok ss,
       { (enforceThreadLimits (loadAgentState st now tid an).2 now tid
           an).2 with
         backend := backendSet (enforceThreadLimits
           (loadAgentState st now tid an).2 now tid an).2.backend now
           (generateStateKey tid an) (serializeContainer c) none }) := by
  set st1 : MemStore := (loadAgentState st now tid an).2 with hst1
  have hl : loadAgentState st now tid an = (Except.ok r, st1) := by
    have h := (Prod.mk.eta (p := loadAgentState st now tid an)).symm
    rw [hload, ← hst1] at h
    exact h
  set st2 : MemStore := (enforceThreadLimits st1 now tid an).2 with hst2
  have he : enforceThreadLimits st1 now tid an = (Except.ok (), st2) := by
    have h := (Prod.mk.eta (p := enforceThreadLimits st1 now tid an)).symm
    rw [henf, ← hst2] at h
    exact h
  unfold saveAgentState saveInner
  simp only [ht, hn, not_true_eq_false, Bool.false_eq_true, if_false, if_true]
  simp only [hl]
  simp only [he]
  cases r <;> exact ⟨_, _, rfl⟩

theorem save_replace_state (st : MemStore) (now : Nat) (tid an : String)
    (d : StateData) (tags : Option (List (String × String)))
    (ht : validateThreadId tid = true) (hn : validateAgentName an = true)
    (henf : (enforceThreadLimits st now tid an).1 = .ok ()) :
    ∃ ss c, saveAgentState st now tid an d false tags =
      (.ok ss,
       { (enforceThreadLimits st now tid an).2 with
         backend := backendSet
           (enforceThreadLimits st now tid an).2.backend now
           (generateStateKey tid an) (serializeContainer c) none }) := by
  set st2 : MemStore := (enforceThreadLimits st now tid an).2 with hst2
  have he : enforceThreadLimits st now tid an = (Except.ok (), st2) := by
    have h := (Prod.mk.eta (p := enforceThreadLimits st now tid an)).symm
    rw [henf, ← hst2] at h
    exact h
  unfold saveAgentState saveInner
  simp only [ht, hn, not_true_eq_false, Bool.false_eq_true, if_false,
    Bool.false_eq_true]
  simp only [he]
  exact ⟨_, _, rfl⟩

theorem threadAgents_after_set (s2 : MemStore) (now : Nat) (tid an : String)
    (c : Container) (ht : validateThreadId tid = true)
    (hn : validateAgentName an = true) (hWF2 : StoreWF s2) (M : Nat)
    (hcnt : countF s2.backend.storage tid an ≤ M - 1) (hM : 1 ≤ M) :
    (threadAgents
      { s2 with backend := backendSet s2.backend now
                  (generateStateKey tid an) (serializeContainer c) none } now
      tid).length ≤ M := by
  rw [threadAgents_length _ now tid ht]
  have hb : ({ s2 with backend := backendSet s2.backend now
                         (generateStateKey tid an) (serializeContainer c)
                         none } :
      MemStore).backend = backendSet s2.backend now
      (generateStateKey tid an) (serializeContainer c) none := rfl
  rw [hb]
  have hstor : (backendSet s2.backend now (generateStateKey tid an)
      (serializeContainer c) none).storage =
      AL.set (ensureSpace s2.backend now
        (blobSize (serializeContainer c)) (generateStateKey tid an)).storage
        (generateStateKey tid an) (serializeContainer c) := rfl
  have h1 : (parsedAgents (cleanupExpired (backendSet s2.backend now
      (generateStateKey tid an) (serializeContainer c) none) now).storage
      tid).length ≤ (parsedAgents (backendSet s2.backend now
      (generateStateKey tid an) (serializeContainer c) none).storage
      tid).length :=
    parsedAgents_sublist_le (cleanupExpired_storage_sublist _ _)
  have hnd : (AL.keys (backendSet s2.backend now (generateStateKey tid an)
      (serializeContainer c) none).storage).Nodup := by
    rw [hstor]
    exact AL.keys_nodup_set _
      (ensureSpace_spec s2.backend now _ _ hWF2.1).1.1
  have h2 := @countA_le_countF_succ ((backendSet s2.backend now
    (generateStateKey tid an) (serializeContainer c) none).storage)
    tid an hnd
  have h3 : countF (backendSet s2.backend now (generateStateKey tid an)
      (serializeContainer c) none).storage tid an ≤
      countF s2.backend.storage tid an := by
    rw [hstor, countF_set_key _ _ _ _ hn]
    exact countF_sublist_le (storage_ensureSpace_sublist _ _ _ _)
  omega

theorem save_bound (st : MemStore) (now : Nat) (tid an : String)
    (d : StateData) (merge : Bool) (tags : Option (List (String × String)))
    (ht : validateThreadId tid = true) (hn : validateAgentName an = true)
    (hWF : StoreWF st) (hmax : 1 ≤ st.max_states_per_thread) :
    (∃ ss, (saveAgentState st now tid an d merge tags).1 = .ok ss) ∧
    (threadAgents (saveAgentState st now tid an d merge tags).2 now
      tid).length ≤ st.max_states_per_thread := by
  cases merge with
  | false =>
    obtain ⟨s2, henf, hcnt, hWF2, hmx2⟩ :=
      enforce_spec st now tid an ht hn hWF hmax
    obtain ⟨ss, c, hsv⟩ := save_replace_state st now tid an d tags ht hn
      (by rw [henf])
    rw [henf] at hsv
    rw [hsv]
    exact ⟨⟨ss, rfl⟩, threadAgents_after_set s2 now tid an c ht hn hWF2
      st.max_states_per_thread hcnt hmax⟩
  | true =>
    obtain ⟨⟨r, hr⟩, hWF1, hmx1⟩ := load_spec st now tid an ht hn hWF
    obtain ⟨s2, henf, hcnt, hWF2, hmx2⟩ :=
      enforce_spec (loadAgentState st now tid an).2 now tid an ht hn hWF1
        (by rw [hmx1]; exact hmax)
    obtain ⟨ss, c, hsv⟩ := save_merge_state st now tid an d tags r ht hn hr
      (by rw [henf])
    rw [henf] at hsv
    rw [hsv]
    rw [hmx1] at hcnt
    exact ⟨⟨ss, rfl⟩, threadAgents_after_set s2 now tid an c ht hn hWF2
      st.max_states_per_thread hcnt hmax⟩

/-! ## Claim C7 -/

/-- A store configured with `max_states_per_thread = 2`. -/
def c7base : MemStore := memStateStoreNew 100 (some 3600) 2

/-- `c7base` after saving agent `agentA` in thread `t7` at t=1000 ms. -/
def st7a : MemStore :=
  (saveAgentState c7base 1000 "t7" "agentA" [("x", JVal.jint 1)]
    false none).2

/-- `st7a` after saving agent `agentB` in thread `t7` at t=2000 ms. -/
def st7b : MemStore :=
  (saveAgentState st7a 2000 "t7" "agentB" [("x", JVal.jint 2)]
    false none).2

/-- `st7b` after saving agent `agentC` in thread `t7` at t=3000 ms. -/
def st7c : MemStore :=
  (saveAgentState st7b 3000 "t7" "agentC" [("x", JVal.jint 3)]
    false none).2

/-- The store of a `max_states_per_thread = 0` configuration after one
successful save. -/
def st70 : MemStore :=
  (saveAgentState (memStateStoreNew 100 (some 3600) 0) 1000 "t7" "agentA"
    [("x", JVal.jint 1)] false none).2

/-- C7 (counterexample): with `max_states_per_thread = 0` a save still
succeeds (`_enforce_thread_limits` removes other agents but always inserts
the new one afterwards), after which the thread holds 1 agent — exceeding
the configured maximum of 0. -/
theorem C7_counterexample :
    okVersion (saveAgentState (memStateStoreNew 100 (some 3600) 0) 1000
      "t7" "agentA" [("x", JVal.jint 1)] false none).1 = some 1 ∧
    threadAgents st70 1000 "t7" = ["agentA"] ∧
    (memStateStoreNew 100 (some 3600) 0).max_states_per_thread = 0 :=
  ⟨rfl, rfl, rfl⟩

/-- C7 (amended): provided the configured `max_states_per_thread` is at
least 1, every successful `save_agent_state` leaves the thread with at most
`max_states_per_thread` distinct agents — `_enforce_thread_limits` deletes
the agents with the oldest `updated_at` before the insertion; in the
concrete `max_states_per_thread = 2` run, after `agentA` (t=1000) and
`agentB` (t=2000) the thread lists exactly those two, and saving a third
agent `agentC` (t=3000) evicts exactly the oldest-updated agent `agentA`,
after which `list_thread_agents` returns exactly 2 agents including the
newly written one. -/
theorem C7_per_thread_limit (st : MemStore) (now : Nat) (tid an : String)
    (d : StateData) (merge : Bool) (tags : Option (List (String × String)))
    (ht : validateThreadId tid = true) (hn : validateAgentName an = true)
    (hWF : StoreWF st) (hmax : 1 ≤ st.max_states_per_thread) :
    ((∃ ss, (saveAgentState st now tid an d merge tags).1 = .ok ss) ∧
      (threadAgents (saveAgentState st now tid an d merge tags).2 now
        tid).length ≤ st.max_states_per_thread) ∧
    threadAgents st7b 2000 "t7" = ["agentA", "agentB"] ∧
    threadAgents st7c 3000 "t7" = ["agentB", "agentC"] :=
  ⟨save_bound st now tid an d merge tags ht hn hWF hmax, rfl, rfl⟩

theorem C7_per_thread_limit_witness :
    validateThreadId "t7" = true ∧ validateAgentName "agentA" = true ∧
    StoreWF freshStore ∧ 1 ≤ freshStore.max_states_per_thread ∧
    ((∃ ss, (saveAgentState freshStore 1000 "t7" "agentA"
        [("x", JVal.jint 1)] false none).1 = .ok ss) ∧
      (threadAgents (saveAgentState freshStore 1000 "t7" "agentA"
        [("x", JVal.jint 1)] false none).2 1000 "t7").length ≤
        freshStore.max_states_per_thread) :=
  ⟨by decide, by decide, by decide, by decide,
   (C7_per_thread_limit freshStore 1000 "t7" "agentA" [("x", JVal.jint 1)]
     false none (by decide) (by decide) (by decide) (by decide)).1⟩
